import Mathlib

/-!
Verification development for the residual vector quantization code in
src/vector_quantization/utils/residual_vq.py (classes ResidualVQ and
GroupedResidualVQ).

Modelling choices (shallow embedding):
* Tensor scalars are exact rationals; floating point accumulation order is
  irrelevant for the properties below since rational addition is exact.
* A tensor of shape (batch, positions, dim) is a Grid Vec: a list of rows,
  each row a list of feature vectors.  The image-feature-map layout
  (accept_image_fmap = True) is not modelled; all definitions fix the
  accept_image_fmap = False layout, so the split axis of GroupedResidualVQ is
  the last (feature) axis.
* The single-stage quantizer (class VectorQuantize, imported from
  vector_quantization/utils/vector_quantize_pytorch.py, a file of this
  repository that is not under src/) is modelled from the spec, see
  StageQuantizer below.
* Python randomness (random.Random(seed).randrange) is modelled from the spec
  as a deterministic function of the seed whose value lies in [lo, hi);
  the distributed branch of the seed selection (torch.distributed) is out of
  scope, so the embedding covers the single-process case: either an explicit
  fixed seed or a process-local draw, each represented by a seed value.
* torch.stack of an empty tensor list raises
  RuntimeError: stack expects a non-empty TensorList; the embedding returns
  an Except.error with that message in the same situation.
-/

set_option linter.unusedVariables false

deriving instance DecidableEq for Except

namespace ResidualVQSpec

/-- Scalars of the embedding: exact rationals. -/
abbrev Scalar := ℚ

/-- A feature vector: the last tensor axis. -/
abbrev Vec := List Scalar

/-- A (batch, positions) grid of values: the leading axes of the tensors. -/
abbrev Grid (α : Type) := List (List α)

/-- Pointwise map over a grid. -/
def gmap {α β : Type} (f : α → β) (g : Grid α) : Grid β :=
  g.map (fun row => row.map f)

/-- Pointwise zip of two grids (shapes agree in every use below). -/
def gzip {α β γ : Type} (f : α → β → γ) (a : Grid α) (b : Grid β) : Grid γ :=
  List.zipWith (fun ra rb => List.zipWith f ra rb) a b

/-- Elementwise sum of two feature vectors. -/
def vAdd (a b : Vec) : Vec := List.zipWith (· + ·) a b

/-- Elementwise difference of two feature vectors. -/
def vSub (a b : Vec) : Vec := List.zipWith (· - ·) a b

/-- The zero vector of the same length as the given vector. -/
def zeroLike (v : Vec) : Vec := v.map (fun _ => 0)

/-- The shape of a grid: its list of row lengths. -/
def gshape {α : Type} (g : Grid α) : List Nat := g.map List.length

/-- Element access in a grid with a default. -/
def getG {α : Type} (g : Grid α) (b p : Nat) (dflt : α) : α :=
  (g.getD b []).getD p dflt

/-- Element access in a three-axis (batch, positions, stages) index tensor. -/
def getI3 (g : Grid (List Int)) (b p q : Nat) : Int :=
  ((g.getD b []).getD p []).getD q 0

/-- Trailing-axis length of a three-axis tensor (its shape is uniform in
every real use, so the first entry is representative). -/
def trailingLen {α : Type} (g : Grid (List α)) : Nat :=
  ((g.headD []).headD []).length

/-- Line 28 of the source: round_up_multiple(num, mult) = ceil(num / mult) * mult. -/
def round_up_multiple (num mult : Nat) : Nat :=
  ((num + mult - 1) / mult) * mult

/-- Modelled from the spec: Python randrange drawn from a seeded generator,
"an explicitly supplied fixed seed → a seeded generator (for reproducibility)".
A deterministic function of the seed with value in [lo, hi) whenever lo < hi. -/
def randrange (seed lo hi : Nat) : Nat := lo + seed % (hi - lo)

/-- Error message strings used by the embedding (mirroring the source asserts
and the runtime errors of the tensor engine). -/
def msgHeads : String := "residual vq is not compatible with multi-headed codes"

def msgCutoffAssert : String := "assert quantize_dropout_cutoff_index >= 0"

def msgDroppedIndices : String :=
  "some of the residual vq indices were dropped out. please use indices derived when the module is in eval mode to derive cross entropy loss"

def msgEmptyStack : String := "stack expects a non-empty TensorList"

def msgEmptyRandrange : String := "empty range for randrange()"

def msgCoarse : String :=
  "quantize dropout must be greater than 0 if you wish to reconstruct from a signal with less fine quantizations"

def msgEinxShape : String := "einx shape mismatch for axis q"

def msgGroupsDiv : String := "assert (dim % groups) == 0"

def msgGroupShape : String := "assert shape[split_dim] == self.dim"

def msgGroupLen : String := "assert len(indices) == 0 or len(indices) == self.groups"

def msgZip : String := "zip arity mismatch"

/-- Modelled from the spec: the out-of-scope single-stage quantizer
(class VectorQuantize of vector_quantization/utils/vector_quantize_pytorch.py,
which is not under src/).  Per the spec it owns a codebook mapping indices in
[0, codebook_size) to vectors of codebook_dim entries; quantization picks an
entry of the codebook (the selection rule is abstract here) and returns that
codeword together with its index, a scalar loss and a loss breakdown with
commitment and codebook-diversity components; given an index override it
returns the codewords at the supplied indices and a scalar cross-entropy loss. -/
structure StageQuantizer where
  embed : List Vec
  select : Vec → Nat
  lossFn : Grid Vec → Scalar
  divFn : Grid Vec → Scalar
  commitFn : Grid Vec → Scalar
  ceFn : Grid Vec → Grid Int → Scalar

/-- Codebook entry at a given index (dummy empty vector when out of range;
real indices are always in range). -/
def StageQuantizer.codeAt (sq : StageQuantizer) (i : Nat) : Vec :=
  sq.embed.getD i []

/-- Discovery-mode quantization of one position: the codeword selected for it. -/
def StageQuantizer.quantizeVec (sq : StageQuantizer) (x : Vec) : Vec :=
  sq.codeAt (sq.select x)

/-- Discovery-mode index of one position (always a natural number, so the
sentinel -1 can never be produced by a stage). -/
def StageQuantizer.indexVec (sq : StageQuantizer) (x : Vec) : Int :=
  Int.ofNat (sq.select x)

/-- The ResidualVQ module state after construction (lines 41-86). -/
structure ResidualVQ where
  dim : Nat
  codebook_dim : Nat
  num_quantizers : Nat
  quantize_dropout : Bool
  quantize_dropout_cutoff_index : Nat
  quantize_dropout_multiple_of : Nat
  layers : List StageQuantizer
  project_in : Vec → Vec
  project_out : Vec → Vec
  has_projections : Bool

instance : Inhabited ResidualVQ :=
  ⟨⟨0, 0, 0, false, 0, 1, [], id, id, false⟩⟩

/-- ResidualVQ.__init__ (lines 41-86).  The stage quantizers and the two
projection maps are construction parameters, since building them is out of
scope; shared_codebook aliasing is modelled by giving every stage the first
stage's codebook (the mutable-aliasing aspect is beyond this pure model and
is not needed by any claim). -/
def ResidualVQ.init (dim num_quantizers : Nat) (codebook_dim : Option Nat)
    (heads : Nat) (quantize_dropout : Bool)
    (quantize_dropout_cutoff_index : Int) (quantize_dropout_multiple_of : Nat)
    (shared_codebook : Bool) (mkLayer : Nat → StageQuantizer)
    (pIn pOut : Vec → Vec) : Except String ResidualVQ :=
  if heads ≠ 1 then .error msgHeads
  else
    let cbd := codebook_dim.getD dim
    let codebook_input_dim := cbd * heads
    let requires_projection := codebook_input_dim ≠ dim
    let layers0 := (List.range num_quantizers).map mkLayer
    if quantize_dropout_cutoff_index < 0 then .error msgCutoffAssert
    else
      let layers := if shared_codebook then
          layers0.map (fun l => { l with embed := (layers0.headD l).embed })
        else layers0
      .ok { dim := dim
            codebook_dim := cbd
            num_quantizers := num_quantizers
            quantize_dropout := quantize_dropout && decide (1 < num_quantizers)
            quantize_dropout_cutoff_index := quantize_dropout_cutoff_index.toNat
            quantize_dropout_multiple_of := quantize_dropout_multiple_of
            layers := layers
            project_in := if requires_projection then pIn else id
            project_out := if requires_projection then pOut else id
            has_projections := requires_projection }

/-- The codebooks property (lines 96-101): one stacked codebook per stage. -/
def ResidualVQ.codebooks (m : ResidualVQ) : List (List Vec) :=
  m.layers.map (fun l => l.embed)

/-- One position of stage q in get_codes_from_indices (lines 120-127): mask
the sentinel, substitute the dummy in-bounds index 0 before the gather, and
zero out the gathered codeword at masked positions. -/
def stageCode (m : ResidualVQ) (q : Nat) (il : List Int) : Vec :=
  let i := il.getD q (-1)
  let ifill : Int := if i = -1 then 0 else i
  let code := (m.codebooks.getD q []).getD ifill.toNat []
  if i = -1 then code.map (fun _ => (0 : Scalar)) else code

/-- ResidualVQ.get_codes_from_indices (lines 103-133) for the non-image
layout, where pack is the identity: assert dropout was enabled when the
trailing axis is short, pad short index lists with the sentinel -1, then
apply the masked gather of stageCode for every stage. -/
def ResidualVQ.get_codes_from_indices (m : ResidualVQ)
    (indices : Grid (List Int)) : Except String (List (Grid Vec)) :=
  let quantize_dim := trailingLen indices
  if quantize_dim < m.num_quantizers ∧ m.quantize_dropout = false then
    .error msgCoarse
  else
    let inds := if quantize_dim < m.num_quantizers then
        gmap (fun il =>
          il ++ List.replicate (m.num_quantizers - quantize_dim) ((-1 : Int))) indices
      else indices
    if trailingLen inds ≠ m.num_quantizers then .error msgEinxShape
    else .ok ((List.range m.num_quantizers).map (fun q => gmap (stageCode m q) inds))

/-- Sum of the per-stage code grids across the stage axis
(reduce with einops pattern q ... -> ..., line 137). -/
def reduceStages (codes : List (Grid Vec)) : Grid Vec :=
  match codes with
  | [] => []
  | c :: rest => rest.foldl (gzip vAdd) c

/-- ResidualVQ.get_output_from_indices (lines 135-138). -/
def ResidualVQ.get_output_from_indices (m : ResidualVQ)
    (indices : Grid (List Int)) : Except String (Grid Vec) :=
  match m.get_codes_from_indices indices with
  | .error e => .error e
  | .ok codes => .ok (gmap m.project_out (reduceStages codes))

/-- Lines 191-194: sample the raw dropout stage index uniformly from
[cutoff_index, num_quant) and, when the granularity is not 1, round
(index + 1) up to the next multiple of the granularity and subtract 1.
The source applies no clamping to the rounded value. -/
def dropoutCutoff (cutoffIndex numQuant mult seed : Nat) : Nat :=
  let r := randrange seed cutoffIndex numQuant
  if mult ≠ 1 then round_up_multiple (r + 1) mult - 1 else r

/-- The dropout cutoff a forward call samples, as a function of the module
configuration and of the seed in effect (the explicitly supplied fixed seed
when present, the process-local draw otherwise — lines 176-194). -/
def ResidualVQ.sampledCutoff (m : ResidualVQ) (fixedSeed : Option Nat)
    (localSeed : Nat) : Nat :=
  dropoutCutoff m.quantize_dropout_cutoff_index m.num_quantizers
    m.quantize_dropout_multiple_of (fixedSeed.getD localSeed)

/-- The mutable locals threaded through the stage loop of forward
(lines 156-235). -/
structure LoopSt where
  residual : Grid Vec
  quantized_out : Grid Vec
  all_losses : List Scalar
  all_indices : List (Grid Int)
  all_loss_breakdown : List Scalar
  all_commit_loss : List Scalar
  ce_losses : List Scalar

/-- One iteration of the stage loop (lines 202-235): either append the
sentinel index grid and a zero loss for a dropped stage, or run the stage
quantizer on the residual, subtract its output from the residual, accumulate
it into the running sum, and record the stage outputs of the current mode. -/
def stepLayer (return_loss : Bool) (sup : Grid (List Int)) (shouldDrop : Bool)
    (cutoff : Nat) (nullIndices : Grid Int) (st : LoopSt) (qi : Nat)
    (layer : StageQuantizer) : LoopSt :=
  if shouldDrop = true ∧ cutoff < qi then
    { st with all_indices := st.all_indices ++ [nullIndices]
              all_losses := st.all_losses ++ [0] }
  else
    let layer_indices : Grid Int := gmap (fun il => il.getD qi 0) sup
    let quantized : Grid Vec :=
      if return_loss then gmap (fun i => layer.codeAt i.toNat) layer_indices
      else gmap layer.quantizeVec st.residual
    let residual' := gzip vSub st.residual quantized
    let quantized_out' := gzip vAdd st.quantized_out quantized
    if return_loss then
      { st with residual := residual'
                quantized_out := quantized_out'
                ce_losses := st.ce_losses ++ [layer.ceFn st.residual layer_indices] }
    else
      { st with residual := residual'
                quantized_out := quantized_out'
                all_indices := st.all_indices ++ [gmap layer.indexVec st.residual]
                all_losses := st.all_losses ++ [layer.lossFn st.residual]
                all_loss_breakdown := st.all_loss_breakdown ++ [layer.divFn st.residual]
                all_commit_loss := st.all_commit_loss ++ [layer.commitFn st.residual] }

/-- The whole stage loop of forward, folding stepLayer over the enumerated
stage quantizers, starting from residual = projected input and an all-zero
accumulator. -/
def ResidualVQ.loopRun (m : ResidualVQ) (return_loss : Bool)
    (sup : Grid (List Int)) (shouldDrop : Bool) (cutoff : Nat)
    (x_pjt_in : Grid Vec) : LoopSt :=
  (m.layers.enum).foldl
    (fun s p => stepLayer return_loss sup shouldDrop cutoff
      (gmap (fun _ => (-1 : Int)) x_pjt_in) s p.1 p.2)
    ⟨x_pjt_in, gmap zeroLike x_pjt_in, [], [], [], [], []⟩

/-- The full tuple returned by a discovery-mode forward call (line 251). -/
structure FwdFull where
  quantized_down : Grid Vec
  all_indices : Grid (List Int)
  all_losses : List Scalar
  quantized_out : Grid Vec
  x_pjt_in : Grid Vec
  mean_breakdown : Scalar
  mean_commit : Scalar
  deriving DecidableEq

/-- The two return shapes of forward: the early cross-entropy return
(line 245) and the full tuple (line 251; the optional all-codes extension of
line 252 is a call of get_codes_from_indices on the returned indices and is
not part of the modelled tuple). -/
inductive FwdRet where
  | withLoss (quantized_down : Grid Vec) (ce_loss : Scalar)
  | full (out : FwdFull)
  deriving DecidableEq

/-- Stack a list of per-stage grids along a new trailing axis
(torch.stack(..., dim = -1), line 249).  Every stacked grid has the shape of
the template (torch.stack requires equal shapes), so the result is generated
over the template's shape. -/
def stackLast {α β : Type} (template : Grid β) (ms : List (Grid α))
    (dflt : α) : Grid (List α) :=
  (List.range template.length).map (fun b =>
    (List.range ((template.getD b []).length)).map (fun p =>
      ms.map (fun mm => getG mm b p dflt)))

/-- Whether any supplied index entry is the sentinel -1 (line 168). -/
def anySentinel (g : Grid (List Int)) : Bool :=
  g.any (fun row => row.any (fun il => il.any (fun i => i == -1)))

/-- ResidualVQ.forward (lines 140-259) in the non-image layout.  indices is
the optional supplied target index tensor (the list-of-tensors form of the
source is its stacked equivalent); fixedSeed is the optional
rand_quantize_dropout_fixed_seed argument and localSeed stands for the
process-local random draw used when no fixed seed is supplied.  Note the
source computes the breakdown means (lines 237-238) before the early
cross-entropy return (line 244), so the empty-stack error of line 237 is
reached in both modes. -/
def ResidualVQ.forward (m : ResidualVQ) (training : Bool) (x : Grid Vec)
    (indices : Option (Grid (List Int))) (fixedSeed : Option Nat)
    (localSeed : Nat) : Except String FwdRet :=
  let return_loss := indices.isSome
  let x_pjt_in := gmap m.project_in x
  let sup := indices.getD []
  if return_loss = true ∧ anySentinel sup = true then .error msgDroppedIndices
  else
    let should_quantize_dropout := training && m.quantize_dropout && !return_loss
    if should_quantize_dropout = true ∧
        m.num_quantizers ≤ m.quantize_dropout_cutoff_index then
      .error msgEmptyRandrange
    else
      let cutoff := m.sampledCutoff fixedSeed localSeed
      let st := m.loopRun return_loss sup should_quantize_dropout cutoff x_pjt_in
      if st.all_loss_breakdown = [] then .error msgEmptyStack
      else
        let mean_breakdown :=
          st.all_loss_breakdown.sum / (st.all_loss_breakdown.length : Scalar)
        let mean_commit :=
          st.all_commit_loss.sum / (st.all_commit_loss.length : Scalar)
        let quantized_down := gmap m.project_out st.quantized_out
        if return_loss then .ok (.withLoss quantized_down st.ce_losses.sum)
        else .ok (.full
          { quantized_down := quantized_down
            all_indices := stackLast x_pjt_in st.all_indices (-1)
            all_losses := st.all_losses
            quantized_out := st.quantized_out
            x_pjt_in := x_pjt_in
            mean_breakdown := mean_breakdown
            mean_commit := mean_commit })

/-- The GroupedResidualVQ module state after construction (lines 263-287). -/
structure GroupedResidualVQ where
  dim : Nat
  groups : Nat
  rvqs : List ResidualVQ

/-- Build the per-group sub-engines, one ResidualVQ.init per group index. -/
def buildRvqs (dpg nq : Nat) (cbd : Option Nat) (heads : Nat) (qd : Bool)
    (qdci : Int) (qdmo : Nat) (shared : Bool)
    (mkLayer : Nat → Nat → StageQuantizer) (pIn pOut : Nat → Vec → Vec) :
    List Nat → Except String (List ResidualVQ)
  | [] => .ok []
  | gi :: rest =>
    match ResidualVQ.init dpg nq cbd heads qd qdci qdmo shared (mkLayer gi)
        (pIn gi) (pOut gi) with
    | .error e => .error e
    | .ok r =>
      match buildRvqs dpg nq cbd heads qd qdci qdmo shared mkLayer pIn pOut rest with
      | .error e => .error e
      | .ok rs => .ok (r :: rs)

/-- GroupedResidualVQ.__init__ (lines 263-287): assert the feature dimension
divides evenly into the groups, then build one independent sub-engine of
dimension dim/groups per group (groups = 0 makes the Python modulo raise,
modelled as the same configuration error). -/
def GroupedResidualVQ.init (dim groups nq : Nat) (cbd : Option Nat)
    (heads : Nat) (qd : Bool) (qdci : Int) (qdmo : Nat) (shared : Bool)
    (mkLayer : Nat → Nat → StageQuantizer) (pIn pOut : Nat → Vec → Vec) :
    Except String GroupedResidualVQ :=
  if groups = 0 ∨ dim % groups ≠ 0 then .error msgGroupsDiv
  else
    match buildRvqs (dim / groups) nq cbd heads qd qdci qdmo shared mkLayer
        pIn pOut (List.range groups) with
    | .error e => .error e
    | .ok rs => .ok ⟨dim, groups, rs⟩

/-- Size of the input along the split axis: the feature (last) axis in the
modelled non-image layout (split_dim property, lines 293-295). -/
def featSize (x : Grid Vec) : Nat := ((x.headD []).headD []).length

/-- torch.chunk(groups, dim = -1) on the feature axis: contiguous equal
slices (the configured dimension is always divisible by groups). -/
def chunkFeat (groups : Nat) (x : Grid Vec) : List (Grid Vec) :=
  (List.range groups).map (fun i =>
    gmap (fun v => (v.drop (i * (v.length / groups))).take (v.length / groups)) x)

/-- torch.cat(..., dim = split_dim) along the feature axis. -/
def catFeat (l : List (Grid Vec)) : Grid Vec :=
  match l with
  | [] => []
  | h :: rest => rest.foldl (gzip (fun a b => a ++ b)) h

/-- The combined full return of a grouped discovery call (lines 345-356):
per-group stacks get a new leading group axis, grids are concatenated along
the feature axis. -/
structure GroupedFull where
  quantized_fd : Grid Vec
  all_indices : List (Grid (List Int))
  commit_losses : List (List Scalar)
  quantized_out_cat : Grid Vec
  x_pjt_in_cat : Grid Vec
  loss_breakdown : List Scalar
  loss_commit : List Scalar
  deriving DecidableEq

/-- The two return shapes of GroupedResidualVQ.forward. -/
inductive GroupedRet where
  | withLoss (quantized : Grid Vec) (ce_loss : Scalar)
  | full (out : GroupedFull)
  deriving DecidableEq

/-- Invoke each sub-engine on its chunk (line 334): zip_longest pairs the
engines and chunks with the per-group supplied indices, padding the missing
indices with none; the one drawn seed is passed to every sub-call. -/
def runGroups (training : Bool) (seed : Nat) :
    List ResidualVQ → List (Grid Vec) → List (Grid (List Int)) →
    Except String (List FwdRet)
  | [], _, _ => .ok []
  | _ :: _, [], _ => .error msgZip
  | rvq :: rs, c :: cs, is =>
    match rvq.forward training c is.head? (some seed) 0 with
    | .error e => .error e
    | .ok o =>
      match runGroups training seed rs cs is.tail with
      | .error e => .error e
      | .ok os => .ok (o :: os)

/-- Split the per-group returns of the cross-entropy mode (line 340). -/
def extractLoss (outs : List FwdRet) : Option (List (Grid Vec × Scalar)) :=
  outs.mapM (fun o => match o with
    | .withLoss q ce => some (q, ce)
    | .full _ => none)

/-- Split the per-group returns of the discovery mode (line 345). -/
def extractFull (outs : List FwdRet) : Option (List FwdFull) :=
  outs.mapM (fun o => match o with
    | .full f => some f
    | .withLoss _ _ => none)

/-- GroupedResidualVQ.forward (lines 305-356) in the non-image layout: assert
the split-axis size equals the configured dim, chunk the feature axis into
groups, draw one seed for the whole call (drawnSeed models the
random.randint(0, int(1e7)) of line 329, evaluated once when the shared
keyword-argument dictionary is built) and forward it as the fixed dropout
seed of every sub-call, then recombine the per-group outputs. -/
def GroupedResidualVQ.forward (g : GroupedResidualVQ) (training : Bool)
    (x : Grid Vec) (indices : List (Grid (List Int))) (drawnSeed : Nat) :
    Except String GroupedRet :=
  if featSize x ≠ g.dim then .error msgGroupShape
  else
    let x_chunk := chunkFeat g.groups x
    let return_ce_loss := decide (0 < indices.length)
    if indices.length ≠ 0 ∧ indices.length ≠ g.groups then .error msgGroupLen
    else
      match runGroups training drawnSeed g.rvqs x_chunk indices with
      | .error e => .error e
      | .ok outs =>
        if return_ce_loss then
          match extractLoss outs with
          | none => .error msgZip
          | some pairs =>
            .ok (.withLoss (catFeat (pairs.map (fun p => p.1)))
              ((pairs.map (fun p => p.2)).sum))
        else
          match extractFull outs with
          | none => .error msgZip
          | some fulls =>
            .ok (.full
              { quantized_fd := catFeat (fulls.map (fun f => f.quantized_down))
                all_indices := fulls.map (fun f => f.all_indices)
                commit_losses := fulls.map (fun f => f.all_losses)
                quantized_out_cat := catFeat (fulls.map (fun f => f.quantized_out))
                x_pjt_in_cat := catFeat (fulls.map (fun f => f.x_pjt_in))
                loss_breakdown := fulls.map (fun f => f.mean_breakdown)
                loss_commit := fulls.map (fun f => f.mean_commit) })

/-! ### Concrete instances used by witnesses -/

/-- A concrete well-formed stage quantizer over a 4-entry codebook of
1-dimensional codewords (codewords 0,1,2,3), always selecting entry 1. -/
def sqW : StageQuantizer :=
  ⟨[[0], [1], [2], [3]], fun _ => 1,
    fun _ => 5, fun _ => 7, fun _ => 9, fun _ _ => 11⟩

/-- Extract the module of a successful construction (dummy fallback). -/
def ofInit (e : Except String ResidualVQ) : ResidualVQ :=
  match e with
  | .ok m => m
  | .error _ => ⟨0, 0, 0, false, 0, 1, [], id, id, false⟩

/-- Extract the grouped module of a successful construction. -/
def ofInitG (e : Except String GroupedResidualVQ) : GroupedResidualVQ :=
  match e with
  | .ok g => g
  | .error _ => ⟨0, 0, []⟩

/-- Extract the full tuple of a successful discovery forward call. -/
def fullOf (e : Except String FwdRet) : FwdFull :=
  match e with
  | .ok (.full f) => f
  | _ => ⟨[], [], [], [], [], 0, 0⟩

/-- Extract the full tuple of a successful grouped discovery forward call. -/
def gFullOf (e : Except String GroupedRet) : GroupedFull :=
  match e with
  | .ok (.full f) => f
  | _ => ⟨[], [], [], [], [], [], []⟩

/-- Whether a construction succeeded. -/
def isOkB (e : Except String ResidualVQ) : Bool :=
  match e with
  | .ok _ => true
  | .error _ => false

/-- dim 1, three stages, dropout enabled with cutoff index 0, granularity 1. -/
def mDropW : ResidualVQ :=
  ofInit (ResidualVQ.init 1 3 none 1 true 0 1 false (fun _ => sqW) id id)

/-- dim 1, four stages, dropout enabled, granularity 3 (does not divide 4). -/
def mG3W : ResidualVQ :=
  ofInit (ResidualVQ.init 1 4 none 1 true 0 3 false (fun _ => sqW) id id)

/-- dim 1, a single stage, dropout requested. -/
def mOneW : ResidualVQ :=
  ofInit (ResidualVQ.init 1 1 none 1 true 0 1 false (fun _ => sqW) id id)

/-- A 1-batch, 1-position, dim-1 input. -/
def xW : Grid Vec := [[[3]]]

/-- A second input of the same shape. -/
def xW' : Grid Vec := [[[5]]]

/-- A 1-batch, 1-position, dim-2 input for the grouped engine. -/
def xW2 : Grid Vec := [[[3, 1]]]

/-- Grouped engine: dim 2 split into 2 groups of dim 1, two stages each,
dropout enabled with cutoff index 0. -/
def gW : GroupedResidualVQ :=
  ofInitG (GroupedResidualVQ.init 2 2 2 none 1 true 0 1 false
    (fun _ _ => sqW) (fun _ => id) (fun _ => id))

/-- The full tuple of the dropout witness call (training, local seed 1,
sampled cutoff 1, stage 2 dropped). -/
def outW3 : FwdFull := fullOf (mDropW.forward true xW none none 1)

/-- First fixed-seed witness call (seed 42). -/
def outW7a : FwdFull := fullOf (mDropW.forward true xW none (some 42) 0)

/-- Second fixed-seed witness call (same seed 42, other input and local seed). -/
def outW7b : FwdFull := fullOf (mDropW.forward true xW' none (some 42) 7)

/-- Single-stage witness call. -/
def outW9 : FwdFull := fullOf (mOneW.forward true xW none none 0)

/-- Grouped witness call (training, drawn seed 2: both groups drop stage 1). -/
def gOutW : GroupedFull := gFullOf (gW.forward true xW2 [] 2)

/-- dim 1, three stages, dropout disabled. -/
def mNoDropW : ResidualVQ :=
  ofInit (ResidualVQ.init 1 3 none 1 false 0 1 false (fun _ => sqW) id id)

/-- Extract the per-stage code grids of a successful conversion. -/
def codesOf (e : Except String (List (Grid Vec))) : List (Grid Vec) :=
  match e with
  | .ok c => c
  | .error _ => []

/-- A coarse (2-stage) index tensor for the 3-stage modules. -/
def idxShortW : Grid (List Int) := [[[0, 2]]]

/-- The codes recovered from the coarse index tensor by the dropout module. -/
def csW : List (Grid Vec) := codesOf (mDropW.get_codes_from_indices idxShortW)

/-! ### Auxiliary definitions used only by the proofs -/

/-- The stage loop from an arbitrary enumerated suffix of the layers and an
arbitrary starting state (proof helper; loopRun is the k = 0 instance). -/
def runFrom (return_loss : Bool) (sup : Grid (List Int)) (shouldDrop : Bool)
    (cutoff : Nat) (nullIndices : Grid Int) (ls : List (Nat × StageQuantizer))
    (st : LoopSt) : LoopSt :=
  ls.foldl (fun s p => stepLayer return_loss sup shouldDrop cutoff nullIndices s p.1 p.2) st

/-- Decode one index value with one stage's codebook, exactly the way
get_codes_from_indices treats one entry (proof helper). -/
def decodeVal (sq : StageQuantizer) (i : Int) : Vec :=
  let ifill : Int := if i = -1 then 0 else i
  let code := sq.embed.getD ifill.toNat []
  if i = -1 then code.map (fun _ => (0 : Scalar)) else code

/-- Decode one stage's index grid exactly the way get_codes_from_indices
decodes one stage column (proof helper). -/
def decodeStage (sq : StageQuantizer) (g : Grid Int) : Grid Vec :=
  gmap (decodeVal sq) g

/-- Decode every stage's index grid with its own codebook (proof helper). -/
def decodeAll (ls : List StageQuantizer) (gs : List (Grid Int)) : List (Grid Vec) :=
  List.zipWith decodeStage ls gs

/-- Well-formedness of a stage quantizer: nonempty codebook of uniform
vector length whose selection always lands in range (the spec's invariant
that every real index lies in [0, codebook_size)). -/
def LayerOK (d : Nat) (sq : StageQuantizer) : Prop :=
  sq.embed ≠ [] ∧ (∀ e ∈ sq.embed, e.length = d) ∧ ∀ v, sq.select v < sq.embed.length

/-- Every vector of the grid has length d. -/
def vecsLenP (d : Nat) (g : Grid Vec) : Prop :=
  ∀ row ∈ g, ∀ v ∈ row, v.length = d

/-! ### Helper lemmas about grids and stacking -/

theorem gshape_gmap {α β : Type} (f : α → β) (g : Grid α) :
    gshape (gmap f g) = gshape g := by
  simp [gshape, gmap, List.map_map, Function.comp]

theorem gshape_eq_length {α β : Type} {a : Grid α} {b : Grid β}
    (h : gshape a = gshape b) : a.length = b.length := by
  have := congrArg List.length h
  simpa [gshape] using this

theorem gshape_row_len {α β : Type} {a : Grid α} {b : Grid β}
    (h : gshape a = gshape b) (i : Nat) :
    (a.getD i []).length = (b.getD i []).length := by
  have hl : a.length = b.length := gshape_eq_length h
  by_cases hi : i < a.length
  · have hib : i < b.length := by omega
    have h1 : (a.getD i []) = a[i] := by
      simp [List.getD_eq_getElem?_getD, List.getElem?_eq_getElem hi]
    have h2 : (b.getD i []) = b[i] := by
      simp [List.getD_eq_getElem?_getD, List.getElem?_eq_getElem hib]
    rw [h1, h2]
    have := congrArg (fun l => l.getD i 0) h
    simpa [gshape, List.getD_eq_getElem?_getD, List.getElem?_map,
      List.getElem?_eq_getElem hi, List.getElem?_eq_getElem (show i < b.length by omega)]
      using this
  · rw [List.getD_eq_getElem?_getD, List.getD_eq_getElem?_getD,
      List.getElem?_eq_none (l := a) (by omega),
      List.getElem?_eq_none (l := b) (by omega)]
    rfl

theorem gshape_gzip {α β γ : Type} (f : α → β → γ) (a : Grid α) (b : Grid β)
    (h : gshape a = gshape b) : gshape (gzip f a b) = gshape a := by
  induction a generalizing b with
  | nil => simp [gzip, gshape]
  | cons ra ta ih =>
    cases b with
    | nil => simp [gshape] at h
    | cons rb tb =>
      simp only [gshape, List.map_cons, List.cons.injEq] at h
      have := ih tb h.2
      simp only [gzip, List.zipWith_cons_cons, gshape, List.map_cons,
        List.cons.injEq]
      constructor
      · rw [List.length_zipWith]; omega
      · simpa [gzip, gshape] using this

theorem getD_of_lt {α : Type} (l : List α) (i : Nat) (d : α) (h : i < l.length) :
    l.getD i d = l[i] := by
  simp [List.getD_eq_getElem?_getD, List.getElem?_eq_getElem h]

theorem getD_map_of_lt {α β : Type} (f : α → β) (l : List α) (i : Nat)
    (d : β) (h : i < l.length) : (l.map f).getD i d = f l[i] := by
  rw [getD_of_lt _ _ _ (by simpa using h)]
  exact List.getElem_map f

theorem getG_gmap {α β : Type} (f : α → β) (g : Grid α) (b p : Nat)
    (d1 : β) (d2 : α) (hb : b < g.length) (hp : p < (g.getD b []).length) :
    getG (gmap f g) b p d1 = f (getG g b p d2) := by
  unfold getG gmap
  rw [getD_map_of_lt _ _ _ _ hb, getD_of_lt _ _ _ hb] at *
  rw [getD_map_of_lt _ _ _ _ hp, getD_of_lt _ _ _ hp]

theorem stackLast_length {α β : Type} (t : Grid β) (ms : List (Grid α))
    (d : α) : (stackLast t ms d).length = t.length := by
  simp [stackLast]

theorem gshape_stackLast {α β : Type} (t : Grid β) (ms : List (Grid α))
    (d : α) : gshape (stackLast t ms d) = gshape t := by
  apply List.ext_getElem
  · simp [gshape, stackLast]
  · intro i h1 h2
    simp only [gshape, stackLast, List.getElem_map, List.getElem_range,
      List.length_map, List.length_range]
    rw [getD_of_lt _ _ _ (by simpa [gshape, stackLast] using h2)]

theorem stackLast_entry {α β : Type} (t : Grid β) (ms : List (Grid α))
    (d : α) (b p : Nat) (hb : b < t.length) (hp : p < (t.getD b []).length) :
    ((stackLast t ms d).getD b []).getD p [] = ms.map (fun mm => getG mm b p d) := by
  unfold stackLast
  rw [getD_map_of_lt _ _ _ _ (by simpa using hb), List.getElem_range]
  rw [getD_map_of_lt _ _ _ _ (by simpa using hp), List.getElem_range]

theorem vecsLen_gmap {d : Nat} (f : Vec → Vec) (g : Grid Vec)
    (hf : ∀ v, (f v).length = d) : vecsLenP d (gmap f g) := by
  intro row hrow v hv
  simp only [gmap, List.mem_map] at hrow
  obtain ⟨r0, _, rfl⟩ := hrow
  simp only [List.mem_map] at hv
  obtain ⟨v0, _, rfl⟩ := hv
  exact hf v0

theorem loopRun_eq_runFrom (m : ResidualVQ) (rl : Bool) (sup : Grid (List Int))
    (shD : Bool) (cutoff : Nat) (x_pjt_in : Grid Vec) :
    m.loopRun rl sup shD cutoff x_pjt_in
      = runFrom rl sup shD cutoff (gmap (fun _ => (-1 : Int)) x_pjt_in)
          (m.layers.enum) ⟨x_pjt_in, gmap zeroLike x_pjt_in, [], [], [], [], []⟩ := rfl

/-- In cross-entropy mode no loop iteration ever appends a loss-breakdown
entry (lines 225-228 continue before line 234). -/
theorem runFrom_true_breakdown (sup : Grid (List Int)) (shD : Bool)
    (cutoff : Nat) (nullI : Grid Int) (ls : List (Nat × StageQuantizer)) :
    ∀ st : LoopSt,
      (runFrom true sup shD cutoff nullI ls st).all_loss_breakdown
        = st.all_loss_breakdown := by
  induction ls with
  | nil => intro st; rfl
  | cons p rest ih =>
    intro st
    have hr : runFrom true sup shD cutoff nullI (p :: rest) st
        = runFrom true sup shD cutoff nullI rest
            (stepLayer true sup shD cutoff nullI st p.1 p.2) := rfl
    rw [hr, ih]
    unfold stepLayer
    by_cases h : shD = true ∧ cutoff < p.1
    · simp [h]
    · simp [h]

/-- Discovery-mode characterization of the stage loop: the per-stage index
and loss lists grow by exactly one entry per stage, the residual keeps its
shape, stages beyond the cutoff (when dropout is active) contribute the
sentinel grid and a zero loss, and every other stage contributes the
selected indices of some grid of the input's shape. -/
theorem runFrom_false_spec (sup : Grid (List Int)) (shD : Bool) (cutoff : Nat)
    (nullI : Grid Int) (ls : List StageQuantizer) :
    ∀ (k : Nat) (st : LoopSt),
    ∃ ti tl,
      (runFrom false sup shD cutoff nullI (List.enumFrom k ls) st).all_indices
          = st.all_indices ++ ti ∧
      (runFrom false sup shD cutoff nullI (List.enumFrom k ls) st).all_losses
          = st.all_losses ++ tl ∧
      ti.length = ls.length ∧ tl.length = ls.length ∧
      gshape (runFrom false sup shD cutoff nullI (List.enumFrom k ls) st).residual
          = gshape st.residual ∧
      ∀ (j : Nat) (hj : j < ls.length),
        ((shD = true ∧ cutoff < k + j) →
            ti.getD j [] = nullI ∧ tl.getD j 1 = 0) ∧
        (¬(shD = true ∧ cutoff < k + j) →
            ∃ rg, gshape rg = gshape st.residual ∧
              ti.getD j [] = gmap (ls[j].indexVec) rg) := by
  induction ls with
  | nil =>
    intro k st
    exact ⟨[], [], by simp [runFrom, List.enumFrom], by simp [runFrom, List.enumFrom],
      rfl, rfl, by simp [runFrom, List.enumFrom], fun j hj => absurd hj (by simp)⟩
  | cons l rest ih =>
    intro k st
    have henum : List.enumFrom k (l :: rest) = (k, l) :: List.enumFrom (k + 1) rest := rfl
    have hr : runFrom false sup shD cutoff nullI (List.enumFrom k (l :: rest)) st
        = runFrom false sup shD cutoff nullI (List.enumFrom (k + 1) rest)
            (stepLayer false sup shD cutoff nullI st k l) := by
      rw [henum]; rfl
    by_cases h : shD = true ∧ cutoff < k
    · -- the stage is dropped
      have hst1 : stepLayer false sup shD cutoff nullI st k l
          = { st with all_indices := st.all_indices ++ [nullI]
                      all_losses := st.all_losses ++ [0] } := by
        unfold stepLayer; simp [h]
      obtain ⟨ti', tl', h1, h2, h3, h4, h5, h6⟩ :=
        ih (k + 1) (stepLayer false sup shD cutoff nullI st k l)
      refine ⟨nullI :: ti', 0 :: tl', ?_, ?_, by simp [h3], by simp [h4], ?_, ?_⟩
      · rw [hr, h1, hst1]; simp
      · rw [hr, h2, hst1]; simp
      · rw [hr, h5, hst1]
      · intro j hj
        match j with
        | 0 =>
          refine ⟨fun _ => ⟨rfl, rfl⟩, fun hc => absurd (by simpa using h) hc⟩
        | j' + 1 =>
          have hj' : j' < rest.length := by simpa using hj
          have := h6 j' hj'
          have harith : k + 1 + j' = k + (j' + 1) := by omega
          rw [harith] at this
          refine ⟨fun hc => ?_, fun hc => ?_⟩
          · have := this.1 hc
            simpa using this
          · obtain ⟨rg, hrg1, hrg2⟩ := this.2 hc
            refine ⟨rg, ?_, by simpa using hrg2⟩
            rw [hrg1, hst1]
    · -- the stage runs
      have hst1 : stepLayer false sup shD cutoff nullI st k l
          = { st with
                residual := gzip vSub st.residual (gmap l.quantizeVec st.residual)
                quantized_out := gzip vAdd st.quantized_out (gmap l.quantizeVec st.residual)
                all_indices := st.all_indices ++ [gmap l.indexVec st.residual]
                all_losses := st.all_losses ++ [l.lossFn st.residual]
                all_loss_breakdown := st.all_loss_breakdown ++ [l.divFn st.residual]
                all_commit_loss := st.all_commit_loss ++ [l.commitFn st.residual] } := by
        unfold stepLayer; simp [h]
      have hshape1 : gshape (gzip vSub st.residual (gmap l.quantizeVec st.residual))
          = gshape st.residual :=
        gshape_gzip _ _ _ (by rw [gshape_gmap])
      obtain ⟨ti', tl', h1, h2, h3, h4, h5, h6⟩ :=
        ih (k + 1) (stepLayer false sup shD cutoff nullI st k l)
      refine ⟨gmap l.indexVec st.residual :: ti', l.lossFn st.residual :: tl',
        ?_, ?_, by simp [h3], by simp [h4], ?_, ?_⟩
      · rw [hr, h1, hst1]; simp
      · rw [hr, h2, hst1]; simp
      · rw [hr, h5, hst1]; exact hshape1
      · intro j hj
        match j with
        | 0 =>
          refine ⟨fun hc => absurd (by simpa using hc) h, fun _ => ⟨st.residual, rfl, rfl⟩⟩
        | j' + 1 =>
          have hj' : j' < rest.length := by simpa using hj
          have := h6 j' hj'
          have harith : k + 1 + j' = k + (j' + 1) := by omega
          rw [harith] at this
          refine ⟨fun hc => ?_, fun hc => ?_⟩
          · have := this.1 hc
            simpa using this
          · obtain ⟨rg, hrg1, hrg2⟩ := this.2 hc
            refine ⟨rg, ?_, by simpa using hrg2⟩
            rw [hrg1, hst1]
            exact hshape1

/-- Inversion of a successful discovery-mode forward call: the returned
fields are exactly the stage-loop results, stacked and projected. -/
theorem forward_full_inv (m : ResidualVQ) (tr : Bool) (x : Grid Vec)
    (fs : Option Nat) (lseed : Nat) (out : FwdFull)
    (h : m.forward tr x none fs lseed = .ok (.full out)) :
    (m.loopRun false [] (tr && m.quantize_dropout) (m.sampledCutoff fs lseed)
        (gmap m.project_in x)).all_loss_breakdown ≠ [] ∧
    out.all_indices = stackLast (gmap m.project_in x)
        (m.loopRun false [] (tr && m.quantize_dropout) (m.sampledCutoff fs lseed)
          (gmap m.project_in x)).all_indices (-1) ∧
    out.all_losses = (m.loopRun false [] (tr && m.quantize_dropout)
        (m.sampledCutoff fs lseed) (gmap m.project_in x)).all_losses ∧
    out.quantized_out = (m.loopRun false [] (tr && m.quantize_dropout)
        (m.sampledCutoff fs lseed) (gmap m.project_in x)).quantized_out ∧
    out.quantized_down = gmap m.project_out
        (m.loopRun false [] (tr && m.quantize_dropout)
          (m.sampledCutoff fs lseed) (gmap m.project_in x)).quantized_out ∧
    out.x_pjt_in = gmap m.project_in x := by
  unfold ResidualVQ.forward at h
  simp only [Option.isSome_none, Option.getD_none, Bool.false_eq_true,
    false_and, if_false, Bool.not_false, Bool.and_true, if_neg] at h
  split at h
  · exact absurd h (by simp)
  · split at h
    · exact absurd h (by simp)
    · simp only [Except.ok.injEq, FwdRet.full.injEq] at h
      rename_i _ hbd
      subst h
      exact ⟨hbd, rfl, rfl, rfl, rfl, rfl⟩

theorem enum_eq_enumFrom (ls : List StageQuantizer) :
    ls.enum = List.enumFrom 0 ls := rfl

theorem ofNat_ne_negOne (n : Nat) : (Int.ofNat n) ≠ -1 := by
  rw [Int.ofNat_eq_natCast]; omega

/-- Master characterization of the index/loss tensors returned by a
discovery-mode forward call: the trailing axes have size num_quantizers, and
an entry is the sentinel -1 exactly at the stage positions beyond the
sampled cutoff of a dropout-enabled training call, where the stacked loss is
zero. -/
theorem forward_sentinel_spec (m : ResidualVQ) (tr : Bool) (x : Grid Vec)
    (fs : Option Nat) (lseed : Nat) (out : FwdFull)
    (hL : m.layers.length = m.num_quantizers)
    (h : m.forward tr x none fs lseed = .ok (.full out)) :
    out.all_losses.length = m.num_quantizers ∧
    gshape out.all_indices = gshape x ∧
    (∀ b p, b < x.length → p < (x.getD b []).length →
      ((out.all_indices.getD b []).getD p []).length = m.num_quantizers) ∧
    (∀ q, q < m.num_quantizers →
      ((tr && m.quantize_dropout) = true ∧ m.sampledCutoff fs lseed < q) →
      out.all_losses.getD q 1 = 0) ∧
    (∀ b p q, b < x.length → p < (x.getD b []).length → q < m.num_quantizers →
      (getI3 out.all_indices b p q = -1 ↔
        ((tr && m.quantize_dropout) = true ∧ m.sampledCutoff fs lseed < q))) := by
  obtain ⟨hbd, hidx, hloss, hqo, hqd, hxp⟩ := forward_full_inv m tr x fs lseed out h
  rw [loopRun_eq_runFrom, enum_eq_enumFrom] at hidx hloss
  obtain ⟨ti, tl, h1, h2, h3, h4, h5, h6⟩ :=
    runFrom_false_spec [] (tr && m.quantize_dropout) (m.sampledCutoff fs lseed)
      (gmap (fun _ => (-1 : Int)) (gmap m.project_in x)) m.layers 0
      ⟨gmap m.project_in x, gmap zeroLike (gmap m.project_in x), [], [], [], [], []⟩
  simp only [List.nil_append] at h1 h2
  rw [h1] at hidx
  rw [h2] at hloss
  have hshx : gshape (gmap m.project_in x) = gshape x := gshape_gmap _ _
  have hxl : (gmap m.project_in x).length = x.length := gshape_eq_length hshx
  have hrow : ∀ b, ((gmap m.project_in x).getD b []).length = (x.getD b []).length :=
    fun b => gshape_row_len hshx b
  refine ⟨?_, ?_, ?_, ?_, ?_⟩
  · rw [hloss, h4, hL]
  · rw [hidx, gshape_stackLast, hshx]
  · intro b p hb hp
    rw [hidx, stackLast_entry _ _ _ b p (by omega) (by rw [hrow]; omega)]
    simp [h3, hL]
  · intro q hq hdrop
    rw [hloss]
    have := (h6 q (by omega)).1 (by simpa using hdrop)
    exact this.2
  · intro b p q hb hp hq
    have hb' : b < (gmap m.project_in x).length := by omega
    have hp' : p < ((gmap m.project_in x).getD b []).length := by rw [hrow]; omega
    have hql : q < ti.length := by omega
    have hentry : getI3 out.all_indices b p q = getG (ti.getD q []) b p (-1) := by
      rw [hidx]
      unfold getI3
      rw [stackLast_entry _ _ _ b p hb' hp', getD_map_of_lt _ _ _ _ hql]
      congr 1
      exact (getD_of_lt _ _ _ hql).symm
    rw [hentry]
    by_cases hdrop : (tr && m.quantize_dropout) = true ∧ m.sampledCutoff fs lseed < q
    · have := (h6 q (by omega)).1 (by simpa using hdrop)
      rw [this.1]
      rw [getG_gmap _ _ b p (-1) [] hb' hp']
      simpa using hdrop
    · obtain ⟨rg, hrg1, hrg2⟩ := (h6 q (by omega)).2 (by simpa using hdrop)
      rw [hrg2]
      have hrg1' : gshape rg = gshape (gmap m.project_in x) := hrg1
      have hbrg : b < rg.length := by
        have := gshape_eq_length hrg1'; omega
      have hprg : p < (rg.getD b []).length := by
        have := gshape_row_len hrg1' b; rw [this]; omega
      rw [getG_gmap _ _ b p (-1) [] hbrg hprg]
      simp only [StageQuantizer.indexVec]
      constructor
      · intro hc; exact absurd hc (ofNat_ne_negOne _)
      · intro hc; exact absurd hc hdrop

/-! ### Arithmetic lemmas for the dropout cutoff -/

theorem randrange_lo_le (s lo hi : Nat) : lo ≤ randrange s lo hi := by
  unfold randrange; omega

theorem randrange_lt (s lo hi : Nat) (h : lo < hi) : randrange s lo hi < hi := by
  unfold randrange
  have : s % (hi - lo) < hi - lo := Nat.mod_lt _ (by omega)
  omega

theorem le_round_up (x g : Nat) (hg : 0 < g) : x ≤ round_up_multiple x g := by
  unfold round_up_multiple
  have e := Nat.div_add_mod (x + g - 1) g
  have hr : (x + g - 1) % g < g := Nat.mod_lt _ hg
  have hc : (x + g - 1) / g * g = g * ((x + g - 1) / g) := Nat.mul_comm _ _
  omega

theorem round_up_mod (x g : Nat) : round_up_multiple x g % g = 0 := by
  unfold round_up_multiple
  exact Nat.mul_mod_left _ _

theorem round_up_mono (x y g : Nat) (h : x ≤ y) :
    round_up_multiple x g ≤ round_up_multiple y g := by
  unfold round_up_multiple
  exact Nat.mul_le_mul_right _ (Nat.div_le_div_right (by omega))

theorem dropoutCutoff_bounds (a n g s : Nat) (hlt : a < n) (hg : 0 < g) :
    a ≤ dropoutCutoff a n g s ∧
    (g = 1 → dropoutCutoff a n g s ≤ n - 1) ∧
    (g ≠ 1 → (dropoutCutoff a n g s + 1) % g = 0 ∧
      dropoutCutoff a n g s ≤ round_up_multiple n g - 1) := by
  have hlo := randrange_lo_le s a n
  have hhi := randrange_lt s a n hlt
  have hru := le_round_up (randrange s a n + 1) g hg
  have hmono := round_up_mono (randrange s a n + 1) n g (by omega)
  simp only [dropoutCutoff]
  by_cases h1 : g = 1
  · rw [if_neg (by simpa using h1)]
    exact ⟨hlo, fun _ => by omega, fun hc => absurd h1 hc⟩
  · rw [if_pos (by simpa using h1)]
    refine ⟨by omega, fun hc => absurd hc h1, fun _ => ⟨?_, by omega⟩⟩
    have heq : round_up_multiple (randrange s a n + 1) g - 1 + 1
        = round_up_multiple (randrange s a n + 1) g := by omega
    rw [heq]
    exact round_up_mod _ _

/-- Inversion of a successful construction: the stored configuration. -/
theorem init_ok_inv (dim nq : Nat) (cbd : Option Nat) (heads : Nat)
    (qd : Bool) (qdci : Int) (qdmo : Nat) (shared : Bool)
    (mk : Nat → StageQuantizer) (pIn pOut : Vec → Vec) (m : ResidualVQ)
    (h : ResidualVQ.init dim nq cbd heads qd qdci qdmo shared mk pIn pOut = .ok m) :
    m.num_quantizers = nq ∧
    m.quantize_dropout = (qd && decide (1 < nq)) ∧
    m.quantize_dropout_cutoff_index = qdci.toNat ∧
    m.quantize_dropout_multiple_of = qdmo ∧
    m.layers.length = nq := by
  simp only [ResidualVQ.init] at h
  split at h
  · exact absurd h (by simp)
  · split at h
    · exact absurd h (by simp)
    · simp only [Except.ok.injEq] at h
      subst h
      refine ⟨rfl, rfl, rfl, rfl, ?_⟩
      split <;> simp

/-! ### Claim theorems -/

/-- C1: the claim says a forward call with supplied target indices returns
the pair (project_out of the accumulated sum, summed cross-entropy losses)
through an early return.  In the code the breakdown means of lines 237-238
are computed before that return, stacking the always-empty breakdown list of
the cross-entropy path, so every such call raises the empty-stack error of
torch.stack instead of returning: the code contradicts the spec (code bug).
This theorem evaluates the code path: with any sentinel-free supplied index
tensor the call returns the empty-stack error. -/
theorem c1_return_loss_crashes (m : ResidualVQ) (tr : Bool) (x : Grid Vec)
    (idx : Grid (List Int)) (fs : Option Nat) (lseed : Nat)
    (hns : anySentinel idx = false) :
    m.forward tr x (some idx) fs lseed = .error msgEmptyStack := by
  unfold ResidualVQ.forward
  have hb : (m.loopRun true idx false
      (m.sampledCutoff fs lseed) (gmap m.project_in x)).all_loss_breakdown = [] := by
    rw [loopRun_eq_runFrom]
    exact runFrom_true_breakdown _ _ _ _ _ _
  simp [hns, hb]

/-- C1 witness: a concrete sentinel-free reconstruction call raises the
empty-stack error instead of early-returning the loss pair. -/
theorem c1_witness :
    anySentinel [[[0, 1, 0]]] = false ∧
    mDropW.forward true xW (some [[[0, 1, 0]]]) none 0 = .error msgEmptyStack :=
  ⟨by decide, c1_return_loss_crashes mDropW true xW [[[0, 1, 0]]] none 0 (by decide)⟩

/-- C2 counterexample: with four stages, cutoff index 0 and granularity 3
(attainable raw draw 3, realized here by fixed seed 3), the sampled cutoff
after granularity rounding is 5, which neither lies in
[cutoff_index, num_quantizers - 1] = [0, 3] nor equals num_quantizers - 1:
the code applies no clamping, contradicting the claim's bound. -/
theorem c2_counterexample :
    mG3W.quantize_dropout = true ∧
    mG3W.num_quantizers = 4 ∧
    mG3W.quantize_dropout_cutoff_index = 0 ∧
    mG3W.quantize_dropout_multiple_of = 3 ∧
    randrange 3 mG3W.quantize_dropout_cutoff_index mG3W.num_quantizers = 3 ∧
    mG3W.sampledCutoff (some 3) 0 = 5 ∧
    ¬(mG3W.sampledCutoff (some 3) 0 ≤ mG3W.num_quantizers - 1) ∧
    mG3W.sampledCutoff (some 3) 0 ≠ mG3W.num_quantizers - 1 := by decide

/-- C2 amended: the raw sampled index always lies in
[cutoff_index, num_quantizers - 1]; the granularity-adjusted cutoff is at
least the cutoff index; with granularity 1 it is at most num_quantizers - 1;
with granularity g greater than 1, (cutoff + 1) is always a multiple of g and
the cutoff is at most round_up_multiple(num_quantizers, g) - 1, which may
exceed num_quantizers - 1 — in which case no stage at all is dropped
(equivalent to a cutoff of num_quantizers - 1), rather than the cutoff being
clamped to num_quantizers - 1. -/
theorem c2_amended_bounds (m : ResidualVQ) (fs : Option Nat) (lseed : Nat)
    (hlt : m.quantize_dropout_cutoff_index < m.num_quantizers)
    (hg : 0 < m.quantize_dropout_multiple_of) :
    (m.quantize_dropout_cutoff_index ≤
        randrange (fs.getD lseed) m.quantize_dropout_cutoff_index m.num_quantizers ∧
      randrange (fs.getD lseed) m.quantize_dropout_cutoff_index m.num_quantizers ≤
        m.num_quantizers - 1) ∧
    m.quantize_dropout_cutoff_index ≤ m.sampledCutoff fs lseed ∧
    (m.quantize_dropout_multiple_of = 1 →
      m.sampledCutoff fs lseed ≤ m.num_quantizers - 1) ∧
    (m.quantize_dropout_multiple_of ≠ 1 →
      (m.sampledCutoff fs lseed + 1) % m.quantize_dropout_multiple_of = 0 ∧
      m.sampledCutoff fs lseed ≤
        round_up_multiple m.num_quantizers m.quantize_dropout_multiple_of - 1) ∧
    (m.num_quantizers - 1 ≤ m.sampledCutoff fs lseed →
      ∀ q, q < m.num_quantizers → ¬(m.sampledCutoff fs lseed < q)) := by
  have hlo := randrange_lo_le (fs.getD lseed) m.quantize_dropout_cutoff_index m.num_quantizers
  have hhi := randrange_lt (fs.getD lseed) m.quantize_dropout_cutoff_index m.num_quantizers hlt
  have hb := dropoutCutoff_bounds m.quantize_dropout_cutoff_index m.num_quantizers
    m.quantize_dropout_multiple_of (fs.getD lseed) hlt hg
  have hcut : m.sampledCutoff fs lseed
      = dropoutCutoff m.quantize_dropout_cutoff_index m.num_quantizers
          m.quantize_dropout_multiple_of (fs.getD lseed) := rfl
  rw [hcut]
  exact ⟨⟨hlo, by omega⟩, hb.1, hb.2.1, hb.2.2, fun hge q hq => by omega⟩

/-- C2 witness: the amended bounds evaluated on the concrete
four-stage, granularity-3 module at fixed seed 3. -/
theorem c2_witness :
    mG3W.quantize_dropout_cutoff_index < mG3W.num_quantizers ∧
    0 < mG3W.quantize_dropout_multiple_of ∧
    (mG3W.sampledCutoff (some 3) 0 + 1) % mG3W.quantize_dropout_multiple_of = 0 ∧
    mG3W.sampledCutoff (some 3) 0 ≤
      round_up_multiple mG3W.num_quantizers mG3W.quantize_dropout_multiple_of - 1 :=
  ⟨by decide, by decide,
    ((c2_amended_bounds mG3W (some 3) 0 (by decide) (by decide)).2.2.2.1 (by decide)).1,
    ((c2_amended_bounds mG3W (some 3) 0 (by decide) (by decide)).2.2.2.1 (by decide)).2⟩

/-- C3: in a dropout-enabled training discovery call, the stacked index
tensor has trailing size exactly num_quantizers, the stacked loss tensor has
length num_quantizers, and every stage position strictly beyond the sampled
cutoff holds the sentinel -1 at every batch position with a zero loss. -/
theorem c3_dropout_sentinel_shapes (m : ResidualVQ) (x : Grid Vec)
    (fs : Option Nat) (lseed : Nat) (out : FwdFull)
    (hL : m.layers.length = m.num_quantizers)
    (hd : m.quantize_dropout = true)
    (h : m.forward true x none fs lseed = .ok (.full out)) :
    (∀ b p, b < x.length → p < (x.getD b []).length →
      ((out.all_indices.getD b []).getD p []).length = m.num_quantizers) ∧
    out.all_losses.length = m.num_quantizers ∧
    (∀ q, m.sampledCutoff fs lseed < q → q < m.num_quantizers →
      (∀ b p, b < x.length → p < (x.getD b []).length →
        getI3 out.all_indices b p q = -1) ∧
      out.all_losses.getD q 1 = 0) := by
  obtain ⟨hlen, hsh, hrow, hloss0, hiff⟩ :=
    forward_sentinel_spec m true x fs lseed out hL h
  refine ⟨hrow, hlen, ?_⟩
  intro q hq1 hq2
  have hcond : (true && m.quantize_dropout) = true ∧ m.sampledCutoff fs lseed < q := by
    simp [hd, hq1]
  exact ⟨fun b p hb hp => (hiff b p q hb hp hq2).2 hcond, hloss0 q hq2 hcond⟩

/-- C3 witness: the concrete three-stage dropout call with sampled cutoff 1
drops stage 2: its index entry is -1 and its stacked loss entry is 0. -/
theorem c3_witness :
    mDropW.layers.length = mDropW.num_quantizers ∧
    mDropW.quantize_dropout = true ∧
    mDropW.forward true xW none none 1 = .ok (.full outW3) ∧
    mDropW.sampledCutoff none 1 = 1 ∧
    getI3 outW3.all_indices 0 0 2 = -1 ∧
    outW3.all_losses.getD 2 1 = 0 := by
  refine ⟨by decide, by decide, rfl, by decide, ?_, ?_⟩
  · exact ((c3_dropout_sentinel_shapes mDropW xW none 1 outW3 (by decide) (by decide)
      rfl).2.2 2 (by decide) (by decide)).1 0 0 (by decide) (by decide)
  · exact ((c3_dropout_sentinel_shapes mDropW xW none 1 outW3 (by decide) (by decide)
      rfl).2.2 2 (by decide) (by decide)).2

theorem map_zero_replicate (l : Vec) :
    l.map (fun _ => (0 : Scalar)) = List.replicate l.length 0 := by
  induction l with
  | nil => rfl
  | cons a t ih => simp [ih, List.replicate]

/-- C5: converting an index tensor whose trailing axis is shorter than
num_quantizers raises the contract assert when dropout is disabled;
otherwise short tensors are padded on the trailing axis with the sentinel
-1, sentinel entries fetch (in-bounds) dummy entry 0 and are zeroed, so the
returned per-stage code tensor has one grid of the input's batch shape per
stage, the code at every non-sentinel position is the corresponding codebook
entry, and the code at every sentinel position (supplied or padded) is
exactly the zero vector. -/
theorem c5_get_codes_contract (m : ResidualVQ) (indices : Grid (List Int))
    (d : Nat) (hlayers : ∀ l ∈ m.layers, LayerOK d l)
    (hL : m.layers.length = m.num_quantizers)
    (huni : ∀ row ∈ indices, ∀ il ∈ row, il.length = trailingLen indices) :
    (trailingLen indices < m.num_quantizers ∧ m.quantize_dropout = false →
      m.get_codes_from_indices indices = .error msgCoarse) ∧
    (∀ cs, m.get_codes_from_indices indices = .ok cs →
      cs.length = m.num_quantizers ∧
      (∀ q, q < m.num_quantizers → gshape (cs.getD q []) = gshape indices) ∧
      (∀ q b p, q < m.num_quantizers → b < indices.length →
        p < (indices.getD b []).length →
        ((q < trailingLen indices → getI3 indices b p q ≠ -1 →
            getG (cs.getD q []) b p []
              = (m.codebooks.getD q []).getD (getI3 indices b p q).toNat []) ∧
          (q < trailingLen indices → getI3 indices b p q = -1 →
            getG (cs.getD q []) b p [] = List.replicate d 0) ∧
          (trailingLen indices ≤ q →
            getG (cs.getD q []) b p [] = List.replicate d 0)))) := by
  constructor
  · intro hc
    simp only [ResidualVQ.get_codes_from_indices]
    rw [if_pos hc]
  · intro cs h
    have hzero : ∀ (q : Nat) (il : List Int), q < m.num_quantizers →
        il.getD q (-1) = -1 → stageCode m q il = List.replicate d 0 := by
      intro q il hq hsent
      have hq2 : q < m.layers.length := by omega
      have hcb : m.codebooks.getD q [] = m.layers[q].embed := by
        unfold ResidualVQ.codebooks
        exact getD_map_of_lt _ _ _ _ hq2
      obtain ⟨hne, hulen, _⟩ := hlayers m.layers[q] (List.getElem_mem _)
      have hpos : 0 < m.layers[q].embed.length := List.length_pos.mpr hne
      have hq3 : q < m.codebooks.length := by
        unfold ResidualVQ.codebooks; simpa using hq2
      have hcbe : m.codebooks[q] = m.layers[q].embed := by
        unfold ResidualVQ.codebooks
        exact List.getElem_map _
      simp only [stageCode, hsent]
      norm_num
      rw [List.getElem?_eq_getElem hq3]
      simp only [Option.getD_some]
      rw [hcbe, List.getElem?_eq_getElem hpos]
      simp only [Option.getD_some]
      exact hulen _ (List.getElem_mem _)
    have hlook : ∀ (q : Nat) (il : List Int), il.getD q (-1) ≠ -1 →
        stageCode m q il
          = (m.codebooks.getD q []).getD (il.getD q (-1)).toNat [] := by
      intro q il hne
      simp only [stageCode, if_neg hne]
    simp only [ResidualVQ.get_codes_from_indices] at h
    split at h
    · exact absurd h (by simp)
    rename_i hguard1
    by_cases hpad : trailingLen indices < m.num_quantizers
    · rw [if_pos hpad] at h
      split at h
      · exact absurd h (by simp)
      rename_i heinx
      simp only [Except.ok.injEq] at h
      subst h
      have hsh : gshape (gmap (fun il =>
          il ++ List.replicate (m.num_quantizers - trailingLen indices)
            ((-1 : Int))) indices) = gshape indices := gshape_gmap _ _
      refine ⟨by simp, ?_, ?_⟩
      · intro q hq
        rw [getD_map_of_lt _ _ _ _ (by simpa using hq), List.getElem_range]
        simp [gshape_gmap]
      · intro q b p hq hb hp
        have hb2 : b < (gmap (fun il =>
            il ++ List.replicate (m.num_quantizers - trailingLen indices)
              ((-1 : Int))) indices).length := by
          have := gshape_eq_length hsh; omega
        have hp2 : p < ((gmap (fun il =>
            il ++ List.replicate (m.num_quantizers - trailingLen indices)
              ((-1 : Int))) indices).getD b []).length := by
          have := gshape_row_len hsh b; omega
        have hentry : getG (((List.range m.num_quantizers).map (fun q2 =>
            gmap (stageCode m q2) (gmap (fun il =>
              il ++ List.replicate (m.num_quantizers - trailingLen indices)
                ((-1 : Int))) indices))).getD q []) b p []
            = stageCode m q (getG (gmap (fun il =>
              il ++ List.replicate (m.num_quantizers - trailingLen indices)
                ((-1 : Int))) indices) b p []) := by
          rw [getD_map_of_lt _ _ _ _ (by simpa using hq), List.getElem_range]
          exact getG_gmap _ _ b p [] [] hb2 hp2
        rw [hentry]
        have hval : getG (gmap (fun il =>
            il ++ List.replicate (m.num_quantizers - trailingLen indices)
              ((-1 : Int))) indices) b p ([] : List Int)
            = (indices.getD b []).getD p []
              ++ List.replicate (m.num_quantizers - trailingLen indices)
                ((-1 : Int)) := by
          rw [getG_gmap _ _ b p [] [] hb hp]
          rfl
        rw [hval]
        have hmem1 : indices.getD b [] ∈ indices := by
          rw [getD_of_lt _ _ _ hb]; exact List.getElem_mem _
        have hmem2 : (indices.getD b []).getD p [] ∈ indices.getD b [] := by
          rw [getD_of_lt (indices.getD b []) _ _ hp]; exact List.getElem_mem _
        have hlen0 : ((indices.getD b []).getD p []).length = trailingLen indices :=
          huni _ hmem1 _ hmem2
        have hI3 : ∀ hq2 : q < trailingLen indices,
            getI3 indices b p q = ((indices.getD b []).getD p []).getD q (-1) := by
          intro hq2
          unfold getI3
          rw [getD_of_lt _ _ _ (show q < ((indices.getD b []).getD p []).length by omega)]
          exact (getD_of_lt _ _ _ (by omega)).symm
        have hgq : ∀ hq2 : q < trailingLen indices,
            ((indices.getD b []).getD p []
              ++ List.replicate (m.num_quantizers - trailingLen indices)
                ((-1 : Int))).getD q (-1) = getI3 indices b p q := by
          intro hq2
          rw [getD_of_lt _ _ _
              (by rw [List.length_append, List.length_replicate]; omega),
            List.getElem_append_left (by omega), hI3 hq2]
          exact (getD_of_lt _ _ _ (by omega)).symm
        refine ⟨?_, ?_, ?_⟩
        · intro hq2 hne
          rw [hlook q _ (by rw [hgq hq2]; exact hne), hgq hq2]
        · intro hq2 hsent
          exact hzero q _ hq ((hgq hq2).trans hsent)
        · intro hq2
          refine hzero q _ hq ?_
          rw [getD_of_lt _ _ _
              (by rw [List.length_append, List.length_replicate]; omega),
            List.getElem_append_right (by omega)]
          exact List.getElem_replicate _ _
    · rw [if_neg hpad] at h
      split at h
      · exact absurd h (by simp)
      rename_i heinx
      simp only [Except.ok.injEq] at h
      subst h
      refine ⟨by simp, ?_, ?_⟩
      · intro q hq
        rw [getD_map_of_lt _ _ _ _ (by simpa using hq), List.getElem_range]
        simp [gshape_gmap]
      · intro q b p hq hb hp
        have hentry : getG (((List.range m.num_quantizers).map (fun q2 =>
            gmap (stageCode m q2) indices)).getD q []) b p []
            = stageCode m q (getG indices b p []) := by
          rw [getD_map_of_lt _ _ _ _ (by simpa using hq), List.getElem_range]
          exact getG_gmap _ _ b p [] [] hb hp
        rw [hentry]
        have hmem1 : indices.getD b [] ∈ indices := by
          rw [getD_of_lt _ _ _ hb]; exact List.getElem_mem _
        have hmem2 : (indices.getD b []).getD p [] ∈ indices.getD b [] := by
          rw [getD_of_lt (indices.getD b []) _ _ hp]; exact List.getElem_mem _
        have hlen0 : ((indices.getD b []).getD p []).length = trailingLen indices :=
          huni _ hmem1 _ hmem2
        have hq2 : q < trailingLen indices := by omega
        have hI3 : getI3 indices b p q
            = ((indices.getD b []).getD p []).getD q (-1) := by
          unfold getI3
          rw [getD_of_lt _ _ _ (show q < ((indices.getD b []).getD p []).length by omega)]
          exact (getD_of_lt _ _ _ (by omega)).symm
        have hgq : (getG indices b p ([] : List Int)).getD q (-1)
            = getI3 indices b p q := hI3.symm
        refine ⟨?_, ?_, fun hc => absurd hq2 (by omega)⟩
        · intro _ hne
          rw [hlook q _ (by rw [hgq]; exact hne), hgq]
        · intro _ hsent
          refine hzero q _ hq ?_
          rw [hgq]
          exact hsent

/-- C5 witness: the coarse 2-of-3-stage index tensor [[[0, 2]]] raises the
contract assert on the dropout-disabled module; on the dropout-enabled
module it is padded, stage 0 gathers codebook entry 0 and the padded stage 2
is exactly the zero vector. -/
theorem c5_witness :
    (trailingLen idxShortW < mNoDropW.num_quantizers ∧
      mNoDropW.quantize_dropout = false) ∧
    mNoDropW.get_codes_from_indices idxShortW = .error msgCoarse ∧
    mDropW.get_codes_from_indices idxShortW = .ok csW ∧
    csW.length = mDropW.num_quantizers ∧
    getG (csW.getD 0 []) 0 0 []
      = (mDropW.codebooks.getD 0 []).getD (getI3 idxShortW 0 0 0).toNat [] ∧
    getG (csW.getD 2 []) 0 0 [] = List.replicate 1 0 := by
  have hlayND : ∀ l ∈ mNoDropW.layers, LayerOK 1 l := by
    intro l hl
    have hlist : mNoDropW.layers = [sqW, sqW, sqW] := rfl
    rw [hlist] at hl
    simp only [List.mem_cons, List.not_mem_nil, or_false] at hl
    rcases hl with rfl | rfl | rfl <;>
      exact ⟨by decide, by decide, fun _ => by show (1 : Nat) < 4; decide⟩
  have hlayD : ∀ l ∈ mDropW.layers, LayerOK 1 l := by
    intro l hl
    have hlist : mDropW.layers = [sqW, sqW, sqW] := rfl
    rw [hlist] at hl
    simp only [List.mem_cons, List.not_mem_nil, or_false] at hl
    rcases hl with rfl | rfl | rfl <;>
      exact ⟨by decide, by decide, fun _ => by show (1 : Nat) < 4; decide⟩
  have hA := c5_get_codes_contract mNoDropW idxShortW 1 hlayND rfl (by decide)
  have hB := c5_get_codes_contract mDropW idxShortW 1 hlayD rfl (by decide)
  refine ⟨by decide, hA.1 (by decide), rfl, (hB.2 csW rfl).1, ?_, ?_⟩
  · exact ((hB.2 csW rfl).2.2 0 0 0 (by decide) (by decide) (by decide)).1
      (by decide) (by decide)
  · exact ((hB.2 csW rfl).2.2 2 0 0 (by decide) (by decide) (by decide)).2.2
      (by decide)

/-- C7: two dropout-enabled training calls of the same module with the same
explicitly supplied fixed seed sample the identical cutoff and produce the
identical sentinel-position pattern in their returned index tensors, for any
two same-shaped inputs and any process-local randomness. -/
theorem c7_fixed_seed_determinism (m : ResidualVQ) (x1 x2 : Grid Vec)
    (s l1 l2 : Nat) (o1 o2 : FwdFull)
    (hL : m.layers.length = m.num_quantizers)
    (hd : m.quantize_dropout = true)
    (hsh : gshape x1 = gshape x2)
    (h1 : m.forward true x1 none (some s) l1 = .ok (.full o1))
    (h2 : m.forward true x2 none (some s) l2 = .ok (.full o2)) :
    m.sampledCutoff (some s) l1 = m.sampledCutoff (some s) l2 ∧
    (∀ b p q, b < x1.length → p < (x1.getD b []).length → q < m.num_quantizers →
      (getI3 o1.all_indices b p q = -1 ↔ getI3 o2.all_indices b p q = -1)) := by
  have hc : m.sampledCutoff (some s) l1 = m.sampledCutoff (some s) l2 := rfl
  obtain ⟨_, _, _, _, hiff1⟩ := forward_sentinel_spec m true x1 (some s) l1 o1 hL h1
  obtain ⟨_, _, _, _, hiff2⟩ := forward_sentinel_spec m true x2 (some s) l2 o2 hL h2
  refine ⟨hc, fun b p q hb hp hq => ?_⟩
  have hb2 : b < x2.length := by
    have := gshape_eq_length hsh; omega
  have hp2 : p < (x2.getD b []).length := by
    have := gshape_row_len hsh b; omega
  rw [hiff1 b p q hb hp hq, hiff2 b p q hb2 hp2 hq, hc]

/-- C7 witness: two concrete calls with fixed seed 42 and different inputs
and local seeds agree on the cutoff and on the sentinel position pattern. -/
theorem c7_witness :
    mDropW.layers.length = mDropW.num_quantizers ∧
    mDropW.quantize_dropout = true ∧
    gshape xW = gshape xW' ∧
    mDropW.forward true xW none (some 42) 0 = .ok (.full outW7a) ∧
    mDropW.forward true xW' none (some 42) 7 = .ok (.full outW7b) ∧
    mDropW.sampledCutoff (some 42) 0 = mDropW.sampledCutoff (some 42) 7 ∧
    (getI3 outW7a.all_indices 0 0 1 = -1 ↔ getI3 outW7b.all_indices 0 0 1 = -1) := by
  refine ⟨by decide, by decide, by decide, rfl, rfl, ?_, ?_⟩
  · exact (c7_fixed_seed_determinism mDropW xW xW' 42 0 7 outW7a outW7b
      (by decide) (by decide) (by decide) rfl rfl).1
  · exact (c7_fixed_seed_determinism mDropW xW xW' 42 0 7 outW7a outW7b
      (by decide) (by decide) (by decide) rfl rfl).2
      0 0 1 (by decide) (by decide) (by decide)

/-- C8 counterexample: constructing with quantize_dropout_cutoff_index = 0
(a non-positive value, and the source default) succeeds — the source assert
is cutoff_index >= 0, so only negative values raise, contradicting the
claim that every value at most 0 raises. -/
theorem c8_counterexample :
    isOkB (ResidualVQ.init 2 2 none 1 true 0 1 false (fun _ => sqW) id id) = true := by
  decide

/-- C8 amended: constructing with a negative quantize-dropout cutoff index
raises the construction assert (with the multi-head assert passing first). -/
theorem c8_amended_negative_raises (dim nq : Nat) (cbd : Option Nat)
    (qd : Bool) (qdci : Int) (qdmo : Nat) (shared : Bool)
    (mk : Nat → StageQuantizer) (pIn pOut : Vec → Vec) (hneg : qdci < 0) :
    ResidualVQ.init dim nq cbd 1 qd qdci qdmo shared mk pIn pOut
      = .error msgCutoffAssert := by
  unfold ResidualVQ.init
  simp [hneg]

/-- C8 witness: cutoff index -1 raises at construction. -/
theorem c8_witness :
    ((-1 : Int) < 0) ∧
    ResidualVQ.init 1 2 none 1 true (-1) 1 false (fun _ => sqW) id id
      = .error msgCutoffAssert :=
  ⟨by decide,
    c8_amended_negative_raises 1 2 none true (-1) 1 false (fun _ => sqW) id id (by decide)⟩

/-- C9: constructing with num_quantizers = 1 stores quantize_dropout = false
even though dropout was requested, and no discovery forward call of such a
module ever emits the sentinel -1 in its returned index tensor. -/
theorem c9_single_stage_no_dropout (dim : Nat) (cbd : Option Nat)
    (qdci : Int) (qdmo : Nat) (shared : Bool) (mk : Nat → StageQuantizer)
    (pIn pOut : Vec → Vec) (m : ResidualVQ)
    (h : ResidualVQ.init dim 1 cbd 1 true qdci qdmo shared mk pIn pOut = .ok m) :
    m.quantize_dropout = false ∧
    ∀ (tr : Bool) (x : Grid Vec) (fs : Option Nat) (lseed : Nat) (out : FwdFull),
      m.forward tr x none fs lseed = .ok (.full out) →
      ∀ b p q, b < x.length → p < (x.getD b []).length → q < m.num_quantizers →
        getI3 out.all_indices b p q ≠ -1 := by
  obtain ⟨hnq, hqd, _, _, hlayers⟩ :=
    init_ok_inv dim 1 cbd 1 true qdci qdmo shared mk pIn pOut m h
  have hqd' : m.quantize_dropout = false := by rw [hqd]; simp
  refine ⟨hqd', ?_⟩
  intro tr x fs lseed out hf b p q hb hp hq
  obtain ⟨_, _, _, _, hiff⟩ :=
    forward_sentinel_spec m tr x fs lseed out (by rw [hlayers, hnq]) hf
  intro hc
  have hcond := (hiff b p q hb hp hq).1 hc
  rw [hqd'] at hcond
  simp at hcond

/-- C9 witness: the concrete single-stage module has the dropout flag off
and a concrete training forward call emits a non-sentinel index. -/
theorem c9_witness :
    mOneW.quantize_dropout = false ∧
    mOneW.forward true xW none none 0 = .ok (.full outW9) ∧
    getI3 outW9.all_indices 0 0 0 ≠ -1 := by
  have h := c9_single_stage_no_dropout 1 none 0 1 false (fun _ => sqW) id id mOneW rfl
  exact ⟨h.1, rfl,
    h.2 true xW none 0 outW9 rfl 0 0 0 (by decide) (by decide) (by decide)⟩

/-- C10: a grouped forward call whose input size along the split (feature)
axis differs from the configured dim returns the shape-assert error before
any group computation. -/
theorem c10_group_shape_guard (g : GroupedResidualVQ) (tr : Bool)
    (x : Grid Vec) (indices : List (Grid (List Int))) (seed : Nat)
    (h : featSize x ≠ g.dim) :
    g.forward tr x indices seed = .error msgGroupShape := by
  unfold GroupedResidualVQ.forward
  simp [h]

/-- C10 witness: a dim-1 input into the dim-2 grouped module raises. -/
theorem c10_witness :
    featSize xW ≠ gW.dim ∧
    gW.forward true xW [] 0 = .error msgGroupShape :=
  ⟨by decide, c10_group_shape_guard gW true xW [] 0 (by decide)⟩

/-! ### Lemmas for the round-trip claim -/

theorem headD_eq_getD {α : Type} (l : List α) (d : α) : l.headD d = l.getD 0 d := by
  cases l <;> rfl

theorem vAdd_replicate_right (v : Vec) (d : Nat) (h : v.length = d) :
    vAdd v (List.replicate d 0) = v := by
  induction v generalizing d with
  | nil => simp [vAdd]
  | cons a t ih =>
    cases d with
    | zero => simp at h
    | succ d' =>
      simp only [List.replicate, vAdd, List.zipWith_cons_cons, add_zero,
        List.cons.injEq, true_and]
      exact ih d' (by simpa using h)

theorem vAdd_zeroLike_left (u v : Vec) (h : u.length = v.length) :
    vAdd (zeroLike u) v = v := by
  induction u generalizing v with
  | nil =>
    cases v with
    | nil => rfl
    | cons b tb => simp at h
  | cons a ta ih =>
    cases v with
    | nil => simp at h
    | cons b tb =>
      simp only [zeroLike, List.map_cons, vAdd, List.zipWith_cons_cons,
        zero_add, List.cons.injEq, true_and]
      exact ih tb (by simpa using h)

theorem zipWith_vAdd_right_zero (ra rb : List Vec) (d : Nat)
    (hlen : ra.length = rb.length)
    (ha : ∀ v ∈ ra, v.length = d)
    (hb : ∀ v ∈ rb, v = List.replicate d 0) :
    List.zipWith vAdd ra rb = ra := by
  induction ra generalizing rb with
  | nil => cases rb <;> rfl
  | cons v tv ih =>
    cases rb with
    | nil => simp at hlen
    | cons w tw =>
      simp only [List.zipWith_cons_cons, List.cons.injEq]
      refine ⟨?_, ih tw (by simpa using hlen)
        (fun u hu => ha u (by simp [hu])) (fun u hu => hb u (by simp [hu]))⟩
      rw [hb w (by simp)]
      exact vAdd_replicate_right v d (ha v (by simp))

theorem zipWith_vAdd_zeroLike (ra rc : List Vec) (d : Nat)
    (hlen : ra.length = rc.length)
    (ha : ∀ v ∈ ra, v.length = d)
    (hc : ∀ v ∈ rc, v.length = d) :
    List.zipWith vAdd (ra.map zeroLike) rc = rc := by
  induction ra generalizing rc with
  | nil => cases rc with
    | nil => rfl
    | cons w tw => simp at hlen
  | cons v tv ih =>
    cases rc with
    | nil => simp at hlen
    | cons w tw =>
      simp only [List.map_cons, List.zipWith_cons_cons, List.cons.injEq]
      refine ⟨?_, ih tw (by simpa using hlen)
        (fun u hu => ha u (by simp [hu])) (fun u hu => hc u (by simp [hu]))⟩
      exact vAdd_zeroLike_left v w (by rw [ha v (by simp), hc w (by simp)])

theorem gzip_vAdd_right_zero (a b : Grid Vec) (d : Nat)
    (hsh : gshape a = gshape b) (ha : vecsLenP d a)
    (hb : ∀ row ∈ b, ∀ v ∈ row, v = List.replicate d 0) :
    gzip vAdd a b = a := by
  induction a generalizing b with
  | nil => cases b <;> rfl
  | cons ra ta ih =>
    cases b with
    | nil => simp [gshape] at hsh
    | cons rb tb =>
      simp only [gshape, List.map_cons, List.cons.injEq] at hsh
      simp only [gzip, List.zipWith_cons_cons, List.cons.injEq]
      exact ⟨zipWith_vAdd_right_zero ra rb d hsh.1 (ha ra (by simp))
          (hb rb (by simp)),
        ih tb hsh.2 (fun row hr => ha row (by simp [hr]))
          (fun row hr => hb row (by simp [hr]))⟩

theorem gzip_vAdd_zeroLike_left (base c : Grid Vec) (d : Nat)
    (hsh : gshape base = gshape c) (hb : vecsLenP d base) (hc : vecsLenP d c) :
    gzip vAdd (gmap zeroLike base) c = c := by
  induction base generalizing c with
  | nil => cases c with
    | nil => rfl
    | cons rc tc => simp [gshape] at hsh
  | cons rb tb ih =>
    cases c with
    | nil => simp [gshape] at hsh
    | cons rc tc =>
      simp only [gshape, List.map_cons, List.cons.injEq] at hsh
      simp only [gmap, List.map_cons, gzip, List.zipWith_cons_cons,
        List.cons.injEq]
      exact ⟨zipWith_vAdd_zeroLike rb rc d hsh.1 (hb rb (by simp))
          (hc rc (by simp)),
        ih tc hsh.2 (fun row hr => hb row (by simp [hr]))
          (fun row hr => hc row (by simp [hr]))⟩

theorem gmap_gmap {α β γ : Type} (f : β → γ) (g : α → β) (x : Grid α) :
    gmap f (gmap g x) = gmap (fun a => f (g a)) x := by
  simp [gmap, List.map_map, Function.comp]

theorem quantizeVec_len {d : Nat} (l : StageQuantizer) (hok : LayerOK d l)
    (v : Vec) : (l.quantizeVec v).length = d := by
  obtain ⟨hne, hulen, hsel⟩ := hok
  unfold StageQuantizer.quantizeVec StageQuantizer.codeAt
  rw [getD_of_lt _ _ _ (hsel v)]
  exact hulen _ (List.getElem_mem _)

theorem decodeVal_encode (l : StageQuantizer) (v : Vec) :
    decodeVal l (l.indexVec v) = l.quantizeVec v := by
  unfold decodeVal
  rw [if_neg (show l.indexVec v ≠ -1 from ofNat_ne_negOne _)]
  show l.embed.getD (l.indexVec v).toNat [] = l.quantizeVec v
  simp only [StageQuantizer.indexVec, Int.toNat_ofNat]
  rfl

theorem decodeStage_encode (l : StageQuantizer) (rg : Grid Vec) :
    decodeStage l (gmap l.indexVec rg) = gmap l.quantizeVec rg := by
  unfold decodeStage
  rw [gmap_gmap]
  unfold gmap
  apply List.map_congr_left
  intro row _
  apply List.map_congr_left
  intro v _
  exact decodeVal_encode l v

theorem decodeVal_null {d : Nat} (l : StageQuantizer) (hok : LayerOK d l) :
    decodeVal l (-1) = List.replicate d 0 := by
  obtain ⟨hne, hulen, _⟩ := hok
  have hpos : 0 < l.embed.length := List.length_pos.mpr hne
  unfold decodeVal
  rw [if_pos rfl, map_zero_replicate]
  have h0 : ((if (-1 : Int) = -1 then (0 : Int) else -1)).toNat = 0 := by norm_num
  rw [h0, getD_of_lt _ _ _ hpos, hulen _ (List.getElem_mem _)]

theorem gshape_decodeStage (l : StageQuantizer) (g : Grid Int) :
    gshape (decodeStage l g) = gshape g := gshape_gmap _ _

theorem decodeStage_zero_entries {d : Nat} (l : StageQuantizer)
    (hok : LayerOK d l) (g : Grid Int)
    (hg : ∀ row ∈ g, ∀ i ∈ row, i = -1) :
    ∀ row ∈ decodeStage l g, ∀ v ∈ row, v = List.replicate d 0 := by
  intro row hrow v hv
  simp only [decodeStage, gmap, List.mem_map] at hrow
  obtain ⟨r0, hr0, rfl⟩ := hrow
  simp only [List.mem_map] at hv
  obtain ⟨i0, hi0, rfl⟩ := hv
  have : i0 = -1 := hg r0 hr0 i0 hi0
  subst this
  exact decodeVal_null l hok

theorem vecsLenP_gzip {d : Nat} (f : Vec → Vec → Vec)
    (hf : ∀ u w, u.length = d → w.length = d → (f u w).length = d)
    (a b : Grid Vec) (ha : vecsLenP d a) (hb : vecsLenP d b) :
    vecsLenP d (gzip f a b) := by
  intro row hrow v hv
  simp only [gzip] at hrow
  obtain ⟨i, hi, hieq⟩ := List.mem_iff_getElem.mp hrow
  rw [List.getElem_zipWith] at hieq
  subst hieq
  obtain ⟨j, hj, hjeq⟩ := List.mem_iff_getElem.mp hv
  rw [List.getElem_zipWith] at hjeq
  subst hjeq
  exact hf _ _ (ha _ (List.getElem_mem _) _ (List.getElem_mem _))
    (hb _ (List.getElem_mem _) _ (List.getElem_mem _))

theorem vSub_len {d : Nat} (u w : Vec) (hu : u.length = d)
    (hw : w.length = d) : (vSub u w).length = d := by
  rw [vSub, List.length_zipWith]; omega

theorem vAdd_len {d : Nat} (u w : Vec) (hu : u.length = d)
    (hw : w.length = d) : (vAdd u w).length = d := by
  rw [vAdd, List.length_zipWith]; omega

/-- Discovery-mode sum characterization of the stage loop: the accumulated
quantized output equals the left fold of the per-stage decoded index grids
over the starting accumulator. -/
theorem runFrom_false_sum {d : Nat} (sup : Grid (List Int)) (shD : Bool)
    (cutoff : Nat) (nullI : Grid Int)
    (hnull : ∀ row ∈ nullI, ∀ i ∈ row, i = -1) (ls : List StageQuantizer)
    (hls : ∀ l ∈ ls, LayerOK d l) :
    ∀ (k : Nat) (st : LoopSt),
    gshape nullI = gshape st.residual →
    gshape st.quantized_out = gshape st.residual →
    vecsLenP d st.residual → vecsLenP d st.quantized_out →
    ∃ ti,
      (runFrom false sup shD cutoff nullI (List.enumFrom k ls) st).all_indices
        = st.all_indices ++ ti ∧
      ti.length = ls.length ∧
      (runFrom false sup shD cutoff nullI (List.enumFrom k ls) st).quantized_out
        = (decodeAll ls ti).foldl (gzip vAdd) st.quantized_out := by
  induction ls with
  | nil =>
    intro k st _ _ _ _
    exact ⟨[], by simp [runFrom, List.enumFrom], rfl,
      by simp [runFrom, List.enumFrom, decodeAll]⟩
  | cons l rest ih =>
    intro k st hn hq hr hqo
    have hlok := hls l (by simp)
    have hrest : ∀ l2 ∈ rest, LayerOK d l2 := fun l2 h2 => hls l2 (by simp [h2])
    have hrun : runFrom false sup shD cutoff nullI
        (List.enumFrom k (l :: rest)) st
        = runFrom false sup shD cutoff nullI (List.enumFrom (k + 1) rest)
            (stepLayer false sup shD cutoff nullI st k l) := rfl
    by_cases hdrop : shD = true ∧ cutoff < k
    · have hst1 : stepLayer false sup shD cutoff nullI st k l
          = { st with all_indices := st.all_indices ++ [nullI]
                      all_losses := st.all_losses ++ [0] } := by
        unfold stepLayer; simp [hdrop]
      obtain ⟨ti', h1, h2, h3⟩ :=
        ih hrest (k + 1) (stepLayer false sup shD cutoff nullI st k l)
          (by rw [hst1]; exact hn) (by rw [hst1]; exact hq)
          (by rw [hst1]; exact hr) (by rw [hst1]; exact hqo)
      refine ⟨nullI :: ti', ?_, by simp [h2], ?_⟩
      · rw [hrun, h1, hst1]; simp
      · rw [hrun, h3, hst1]
        have hz : gzip vAdd st.quantized_out (decodeStage l nullI)
            = st.quantized_out := by
          apply gzip_vAdd_right_zero _ _ d
          · rw [gshape_decodeStage, hq, hn]
          · exact hqo
          · exact decodeStage_zero_entries l hlok nullI hnull
        simp only [decodeAll, List.zipWith_cons_cons, List.foldl_cons, hz]
    · have hst1 : stepLayer false sup shD cutoff nullI st k l
          = { st with
                residual := gzip vSub st.residual (gmap l.quantizeVec st.residual)
                quantized_out :=
                  gzip vAdd st.quantized_out (gmap l.quantizeVec st.residual)
                all_indices := st.all_indices ++ [gmap l.indexVec st.residual]
                all_losses := st.all_losses ++ [l.lossFn st.residual]
                all_loss_breakdown :=
                  st.all_loss_breakdown ++ [l.divFn st.residual]
                all_commit_loss :=
                  st.all_commit_loss ++ [l.commitFn st.residual] } := by
        unfold stepLayer; simp [hdrop]
      have hql : vecsLenP d (gmap l.quantizeVec st.residual) :=
        vecsLen_gmap _ _ (quantizeVec_len l hlok)
      have hqsh : gshape (gmap l.quantizeVec st.residual) = gshape st.residual :=
        gshape_gmap _ _
      have hres' : gshape (gzip vSub st.residual (gmap l.quantizeVec st.residual))
          = gshape st.residual := gshape_gzip _ _ _ (by rw [hqsh])
      have hqo' : gshape (gzip vAdd st.quantized_out (gmap l.quantizeVec st.residual))
          = gshape st.quantized_out := gshape_gzip _ _ _ (by rw [hqsh, hq])
      obtain ⟨ti', h1, h2, h3⟩ :=
        ih hrest (k + 1) (stepLayer false sup shD cutoff nullI st k l)
          (by rw [hst1]; show gshape nullI = gshape (gzip vSub _ _); rw [hres', hn])
          (by rw [hst1]; show gshape (gzip vAdd _ _) = gshape (gzip vSub _ _)
              rw [hres', hqo', hq])
          (by rw [hst1]
              exact vecsLenP_gzip vSub (fun u w hu hw => vSub_len u w hu hw)
                _ _ hr hql)
          (by rw [hst1]
              exact vecsLenP_gzip vAdd (fun u w hu hw => vAdd_len u w hu hw)
                _ _ hqo hql)
      refine ⟨gmap l.indexVec st.residual :: ti', ?_, by simp [h2], ?_⟩
      · rw [hrun, h1, hst1]; simp
      · rw [hrun, h3, hst1]
        simp only [decodeAll, List.zipWith_cons_cons, List.foldl_cons,
          decodeStage_encode]

theorem grid_ext_getG {α : Type} (a b : Grid α) (dflt : α)
    (hl : a.length = b.length)
    (hrow : ∀ i, i < a.length → (a.getD i []).length = (b.getD i []).length)
    (hpt : ∀ i j, i < a.length → j < (a.getD i []).length →
      getG a i j dflt = getG b i j dflt) : a = b := by
  apply List.ext_getElem hl
  intro i h1 h2
  have hrl : a[i].length = b[i].length := by
    have := hrow i h1
    rwa [getD_of_lt _ _ _ h1, getD_of_lt _ _ _ h2] at this
  apply List.ext_getElem hrl
  intro j j1 j2
  have := hpt i j h1 (by rwa [getD_of_lt _ _ _ h1])
  unfold getG at this
  rwa [getD_of_lt _ _ _ h1, getD_of_lt _ _ _ h2,
    getD_of_lt _ _ _ j1, getD_of_lt _ _ _ j2] at this

theorem trailingLen_eq_getD {α : Type} (g : Grid (List α)) :
    trailingLen g = ((g.getD 0 []).getD 0 []).length := by
  unfold trailingLen
  rw [headD_eq_getD, headD_eq_getD]

theorem stageCode_eq_decodeVal (m : ResidualVQ) (q : Nat)
    (hq : q < m.layers.length) (il : List Int) :
    stageCode m q il = decodeVal m.layers[q] (il.getD q (-1)) := by
  have hcb : m.codebooks.getD q [] = m.layers[q].embed := by
    unfold ResidualVQ.codebooks
    exact getD_map_of_lt _ _ _ _ hq
  unfold stageCode decodeVal
  rw [hcb]

theorem reduceStages_eq_foldl (cs : List (Grid Vec)) (z : Grid Vec)
    (hne : cs ≠ []) (hid : gzip vAdd z (cs.getD 0 []) = cs.getD 0 []) :
    reduceStages cs = cs.foldl (gzip vAdd) z := by
  cases cs with
  | nil => exact absurd rfl hne
  | cons c0 rest =>
    show rest.foldl _ c0 = _
    simp only [List.foldl_cons]
    rw [show (c0 :: rest).getD 0 [] = c0 from rfl] at hid
    rw [hid]

/-- C4: for every successful discovery-mode forward call of a well-formed
module, get_output_from_indices applied to the returned index tensor
reproduces the returned reconstruction exactly: summing the per-stage codes
across the stage axis and applying the output projection round-trips the
encoding, including dropped stages (sentinel -1 decodes to the zero vector,
matching the skipped stage contribution). -/
theorem c4_roundtrip (m : ResidualVQ) (tr : Bool) (x : Grid Vec)
    (fs : Option Nat) (lseed : Nat) (out : FwdFull)
    (hL : m.layers.length = m.num_quantizers)
    (hlayers : ∀ l ∈ m.layers, LayerOK m.codebook_dim l)
    (hpin : ∀ v, v.length = m.dim → (m.project_in v).length = m.codebook_dim)
    (hxlen : vecsLenP m.dim x)
    (hx1 : x ≠ []) (hx2 : x.getD 0 [] ≠ [])
    (h : m.forward tr x none fs lseed = .ok (.full out)) :
    m.get_output_from_indices out.all_indices = .ok out.quantized_down := by
  obtain ⟨hbd, hidx, hloss, hqo, hqd, hxp⟩ := forward_full_inv m tr x fs lseed out h
  rw [loopRun_eq_runFrom, enum_eq_enumFrom] at hbd hidx hloss hqo hqd
  set xp := gmap m.project_in x with hxpdef
  have hxpVL : vecsLenP m.codebook_dim xp := by
    intro row hrow v hv
    rw [hxpdef] at hrow
    simp only [gmap, List.mem_map] at hrow
    obtain ⟨r0, hr0, rfl⟩ := hrow
    simp only [List.mem_map] at hv
    obtain ⟨v0, hv0, rfl⟩ := hv
    exact hpin v0 (hxlen r0 hr0 v0 hv0)
  have hshxp : gshape xp = gshape x := by rw [hxpdef]; exact gshape_gmap _ _
  have hzVL : vecsLenP m.codebook_dim (gmap zeroLike xp) := by
    intro row hrow v hv
    simp only [gmap, List.mem_map] at hrow
    obtain ⟨r0, hr0, rfl⟩ := hrow
    simp only [List.mem_map] at hv
    obtain ⟨v0, hv0, rfl⟩ := hv
    show (zeroLike v0).length = m.codebook_dim
    rw [zeroLike, List.length_map]
    exact hxpVL r0 hr0 v0 hv0
  have hnull : ∀ row ∈ gmap (fun _ => (-1 : Int)) xp, ∀ i ∈ row, i = -1 := by
    intro row hrow i hi
    simp only [gmap, List.mem_map] at hrow
    obtain ⟨r0, _, rfl⟩ := hrow
    simp only [List.mem_map] at hi
    obtain ⟨_, _, rfl⟩ := hi
    rfl
  obtain ⟨tiA, tlA, hA1, hA2, hA3, hA4, hA5, hA6⟩ :=
    runFrom_false_spec [] (tr && m.quantize_dropout) (m.sampledCutoff fs lseed)
      (gmap (fun _ => (-1 : Int)) xp) m.layers 0
      ⟨xp, gmap zeroLike xp, [], [], [], [], []⟩
  obtain ⟨tiB, hB1, hB2, hB3⟩ :=
    runFrom_false_sum (d := m.codebook_dim) [] (tr && m.quantize_dropout)
      (m.sampledCutoff fs lseed) (gmap (fun _ => (-1 : Int)) xp) hnull
      m.layers hlayers 0 ⟨xp, gmap zeroLike xp, [], [], [], [], []⟩
      (gshape_gmap _ _) (gshape_gmap _ _) hxpVL hzVL
  simp only [List.nil_append] at hA1 hA2 hB1
  have hAB : tiA = tiB := by rw [← hA1, ← hB1]
  subst hAB
  rw [hA1] at hidx
  have hlne : m.layers ≠ [] := by
    intro hnil
    apply hbd
    rw [hnil]
    rfl
  have hn0 : 0 < m.layers.length := List.length_pos.mpr hlne
  have hn1 : 0 < m.num_quantizers := by omega
  have hxl0 : 0 < xp.length := by
    have := gshape_eq_length hshxp
    have := List.length_pos.mpr hx1
    omega
  have hrow0 : 0 < (xp.getD 0 []).length := by
    have h1 := gshape_row_len hshxp 0
    have h2 : (x.getD 0 []).length ≠ 0 := by
      intro hc
      exact hx2 (List.eq_nil_of_length_eq_zero hc)
    omega
  have htln : trailingLen (stackLast xp tiA (-1)) = m.num_quantizers := by
    rw [trailingLen_eq_getD, stackLast_entry _ _ _ 0 0 hxl0 hrow0,
      List.length_map, hA3, hL]
  -- the per-stage shape of the returned index columns
  have htiq : ∀ q, q < m.num_quantizers → gshape (tiA.getD q []) = gshape xp := by
    intro q hq
    by_cases hdrop : (tr && m.quantize_dropout) = true ∧ m.sampledCutoff fs lseed < q
    · rw [((hA6 q (by omega)).1 (by simpa using hdrop)).1]
      exact gshape_gmap _ _
    · obtain ⟨rg, hrgs, hrge⟩ := (hA6 q (by omega)).2 (by simpa using hdrop)
      rw [hrge, gshape_gmap]
      exact hrgs
  have hcodes : m.get_codes_from_indices (stackLast xp tiA (-1))
      = .ok ((List.range m.num_quantizers).map (fun q =>
          gmap (stageCode m q) (stackLast xp tiA (-1)))) := by
    simp only [ResidualVQ.get_codes_from_indices]
    simp [htln, Nat.lt_irrefl]
  have hstsh : gshape (stackLast xp tiA (-1)) = gshape xp := gshape_stackLast _ _ _
  have hframes : ∀ (q : Nat) (hq : q < m.num_quantizers),
      gmap (stageCode m q) (stackLast xp tiA (-1))
        = decodeStage (m.layers.get ⟨q, by omega⟩) (tiA.getD q []) := by
    intro q hq
    have hq' : q < m.layers.length := by omega
    have hqt : q < tiA.length := by omega
    apply grid_ext_getG _ _ ([] : Vec)
    · rw [gshape_eq_length (gshape_gmap (stageCode m q) (stackLast xp tiA (-1)))]
      rw [gshape_eq_length hstsh]
      rw [gshape_eq_length (gshape_decodeStage _ _)]
      rw [gshape_eq_length (htiq q hq)]
    · intro i hi
      rw [gshape_row_len (gshape_gmap (stageCode m q) (stackLast xp tiA (-1))) i,
        gshape_row_len hstsh i,
        gshape_row_len (gshape_decodeStage (m.layers.get ⟨q, by omega⟩) (tiA.getD q [])) i,
        gshape_row_len (htiq q hq) i]
    · intro b p hb hp
      have hbx : b < xp.length := by
        have h1 := gshape_eq_length
          (gshape_gmap (stageCode m q) (stackLast xp tiA (-1)))
        have h2 := gshape_eq_length hstsh
        omega
      have hpx : p < (xp.getD b []).length := by
        have h1 := gshape_row_len
          (gshape_gmap (stageCode m q) (stackLast xp tiA (-1))) b
        have h2 := gshape_row_len hstsh b
        omega
      have hbst : b < (stackLast xp tiA (-1)).length := by
        have := gshape_eq_length hstsh; omega
      have hpst : p < ((stackLast xp tiA (-1)).getD b []).length := by
        have := gshape_row_len hstsh b; omega
      have hbt : b < (tiA.getD q []).length := by
        have := gshape_eq_length (htiq q hq); omega
      have hpt2 : p < ((tiA.getD q []).getD b []).length := by
        have := gshape_row_len (htiq q hq) b; omega
      rw [getG_gmap _ _ b p [] ([] : List Int) hbst hpst]
      rw [show decodeStage (m.layers.get ⟨q, by omega⟩) (tiA.getD q [])
          = gmap (decodeVal (m.layers.get ⟨q, by omega⟩)) (tiA.getD q []) from rfl]
      rw [getG_gmap _ _ b p [] ((-1 : Int)) hbt hpt2]
      have hstval : getG (stackLast xp tiA (-1)) b p ([] : List Int)
          = tiA.map (fun mm => getG mm b p (-1)) := by
        show ((stackLast xp tiA (-1)).getD b []).getD p [] = _
        exact stackLast_entry _ _ _ b p hbx hpx
      rw [hstval, stageCode_eq_decodeVal m q hq',
        getD_map_of_lt _ _ _ _ hqt, getD_of_lt _ _ _ hqt]
      rfl
  have hlen_codes : ((List.range m.num_quantizers).map (fun q =>
      gmap (stageCode m q) (stackLast xp tiA (-1)))).length
      = (decodeAll m.layers tiA).length := by
    simp [decodeAll, List.length_zipWith]
    omega
  have hcodesD : (List.range m.num_quantizers).map (fun q =>
      gmap (stageCode m q) (stackLast xp tiA (-1))) = decodeAll m.layers tiA := by
    apply List.ext_getElem hlen_codes
    intro q h1 h2
    rw [List.getElem_map, List.getElem_range]
    simp only [decodeAll]
    rw [List.getElem_zipWith]
    have hq : q < m.num_quantizers := by simpa using h1
    rw [hframes q hq]
    congr 1
    exact getD_of_lt tiA q [] (by omega)
  -- the head decode is absorbed by the zero accumulator
  obtain ⟨rg0, hrg0s, hrg0e⟩ := (hA6 0 hn0).2 (by simp)
  have hD0 : (decodeAll m.layers tiA).getD 0 []
      = decodeStage (m.layers.get ⟨0, hn0⟩) (tiA.getD 0 []) := by
    simp only [decodeAll]
    rw [getD_of_lt _ _ _ (by rw [List.length_zipWith]; omega),
      List.getElem_zipWith]
    congr 1
    exact (getD_of_lt tiA 0 [] (by omega)).symm
  have hrg0s' : gshape rg0 = gshape xp := hrg0s
  have hid : gzip vAdd (gmap zeroLike xp) ((decodeAll m.layers tiA).getD 0 [])
      = (decodeAll m.layers tiA).getD 0 [] := by
    rw [hD0, hrg0e, show m.layers.get ⟨0, hn0⟩ = m.layers[0] from rfl,
      decodeStage_encode]
    apply gzip_vAdd_zeroLike_left _ _ m.codebook_dim
    · rw [gshape_gmap, gshape_gmap, hrg0s']
      exact hshxp.symm
    · exact hxpVL
    · exact vecsLen_gmap _ _ (quantizeVec_len _ (hlayers _ (List.getElem_mem _)))
  have hDne : decodeAll m.layers tiA ≠ [] := by
    intro hc
    have hcl := congrArg List.length hc
    rw [show (decodeAll m.layers tiA).length
        = min m.layers.length tiA.length from List.length_zipWith _ _ _] at hcl
    simp only [List.length_nil] at hcl
    omega
  have hsum : reduceStages (decodeAll m.layers tiA)
      = (decodeAll m.layers tiA).foldl (gzip vAdd) (gmap zeroLike xp) :=
    reduceStages_eq_foldl _ _ hDne hid
  unfold ResidualVQ.get_output_from_indices
  rw [hidx, hcodes]
  show Except.ok (gmap m.project_out (reduceStages _)) = _
  rw [hcodesD, hsum, ← hB3, ← hqo]
  rw [hqd, hqo]

/-- C4 witness: the concrete dropout discovery call (stage 2 dropped) and
the decode-only path agree exactly on the reconstruction. -/
theorem c4_witness :
    mDropW.layers.length = mDropW.num_quantizers ∧
    mDropW.forward true xW none none 1 = .ok (.full outW3) ∧
    mDropW.get_output_from_indices outW3.all_indices = .ok outW3.quantized_down := by
  have hlay : ∀ l ∈ mDropW.layers, LayerOK mDropW.codebook_dim l := by
    intro l hl
    have hlist : mDropW.layers = [sqW, sqW, sqW] := rfl
    rw [hlist] at hl
    simp only [List.mem_cons, List.not_mem_nil, or_false] at hl
    rcases hl with rfl | rfl | rfl <;>
      exact ⟨by decide, by decide, fun _ => by show (1 : Nat) < 4; decide⟩
  exact ⟨by decide, rfl,
    c4_roundtrip mDropW true xW none 1 outW3 (by decide) hlay
      (fun v hv => hv) (by unfold vecsLenP; decide) (by decide) (by decide) rfl⟩

/-! ### Lemmas for the grouped engine -/

theorem buildRvqs_inv (dpg nq : Nat) (cbd : Option Nat) (heads : Nat)
    (qd : Bool) (qdci : Int) (qdmo : Nat) (shared : Bool)
    (mk : Nat → Nat → StageQuantizer) (pIn pOut : Nat → Vec → Vec) :
    ∀ (gis : List Nat) (rs : List ResidualVQ),
    buildRvqs dpg nq cbd heads qd qdci qdmo shared mk pIn pOut gis = .ok rs →
    rs.length = gis.length ∧
    ∀ r ∈ rs, r.num_quantizers = nq ∧
      r.quantize_dropout = (qd && decide (1 < nq)) ∧
      r.quantize_dropout_cutoff_index = qdci.toNat ∧
      r.quantize_dropout_multiple_of = qdmo ∧
      r.layers.length = nq := by
  intro gis
  induction gis with
  | nil =>
    intro rs h
    simp only [buildRvqs, Except.ok.injEq] at h
    subst h
    exact ⟨rfl, by simp⟩
  | cons gi rest ih =>
    intro rs h
    simp only [buildRvqs] at h
    split at h
    · exact absurd h (by simp)
    · rename_i r0 hr0
      split at h
      · exact absurd h (by simp)
      · rename_i rs' hrs'
        simp only [Except.ok.injEq] at h
        subst h
        obtain ⟨hlen, hall⟩ := ih rs' hrs'
        refine ⟨by simp [hlen], ?_⟩
        intro r hr
        simp only [List.mem_cons] at hr
        rcases hr with rfl | hr
        · obtain ⟨h1, h2, h3, h4, h5⟩ :=
            init_ok_inv dpg nq cbd heads qd qdci qdmo shared (mk gi)
              (pIn gi) (pOut gi) r hr0
          exact ⟨h1, h2, h3, h4, h5⟩
        · exact hall r hr

theorem groupedInit_inv (dim groups nq : Nat) (cbd : Option Nat)
    (heads : Nat) (qd : Bool) (qdci : Int) (qdmo : Nat) (shared : Bool)
    (mk : Nat → Nat → StageQuantizer) (pIn pOut : Nat → Vec → Vec)
    (g : GroupedResidualVQ)
    (h : GroupedResidualVQ.init dim groups nq cbd heads qd qdci qdmo shared
        mk pIn pOut = .ok g) :
    g.groups = groups ∧ g.rvqs.length = groups ∧
    ∀ r ∈ g.rvqs, r.num_quantizers = nq ∧
      r.quantize_dropout = (qd && decide (1 < nq)) ∧
      r.quantize_dropout_cutoff_index = qdci.toNat ∧
      r.quantize_dropout_multiple_of = qdmo ∧
      r.layers.length = nq := by
  simp only [GroupedResidualVQ.init] at h
  split at h
  · exact absurd h (by simp)
  · split at h
    · exact absurd h (by simp)
    · rename_i rs hrs
      simp only [Except.ok.injEq] at h
      subst h
      obtain ⟨hlen, hall⟩ := buildRvqs_inv _ _ _ _ _ _ _ _ _ _ _ _ _ hrs
      exact ⟨rfl, by simpa using hlen, hall⟩

theorem runGroups_nil_inv (tr : Bool) (seed : Nat) :
    ∀ (rvqs : List ResidualVQ) (chunks : List (Grid Vec)) (outs : List FwdRet),
    runGroups tr seed rvqs chunks [] = .ok outs →
    outs.length = rvqs.length ∧
    ∀ (i : Nat) (hi : i < rvqs.length),
      ∃ (hc : i < chunks.length) (ho : i < outs.length),
        rvqs[i].forward tr chunks[i] none (some seed) 0 = .ok outs[i] := by
  intro rvqs
  induction rvqs with
  | nil =>
    intro chunks outs h
    cases chunks with
    | nil =>
      simp only [runGroups, Except.ok.injEq] at h
      subst h
      exact ⟨rfl, fun i hi => absurd hi (by simp)⟩
    | cons c cs =>
      simp only [runGroups, Except.ok.injEq] at h
      subst h
      exact ⟨rfl, fun i hi => absurd hi (by simp)⟩
  | cons r rrest ih =>
    intro chunks outs h
    cases chunks with
    | nil => exact absurd h (by simp [runGroups, msgZip])
    | cons c cs =>
      simp only [runGroups] at h
      split at h
      · exact absurd h (by simp)
      · rename_i o ho
        split at h
        · exact absurd h (by simp)
        · rename_i os hos
          simp only [Except.ok.injEq] at h
          subst h
          obtain ⟨hlen, hall⟩ := ih cs os hos
          refine ⟨by simp [hlen], ?_⟩
          intro i hi
          match i with
          | 0 =>
            refine ⟨by simp, by simp, ?_⟩
            simpa using ho
          | i' + 1 =>
            obtain ⟨hc', ho', he'⟩ := hall i' (by simpa using hi)
            refine ⟨by simpa using hc', by simpa using ho', ?_⟩
            simpa using he'

theorem extractFull_inv : ∀ (outs : List FwdRet) (fulls : List FwdFull),
    extractFull outs = some fulls →
    fulls.length = outs.length ∧
    ∀ (i : Nat) (hi : i < outs.length) (hf : i < fulls.length),
      outs[i] = .full fulls[i] := by
  intro outs
  induction outs with
  | nil =>
    intro fulls h
    simp only [extractFull, List.mapM_nil, Option.pure_def, Option.some.injEq] at h
    subst h
    exact ⟨rfl, fun i hi => absurd hi (by simp)⟩
  | cons o orest ih =>
    intro fulls h
    simp only [extractFull, List.mapM_cons] at h
    cases o with
    | withLoss q ce => simp at h
    | full f =>
      simp only [Option.pure_def, Option.bind_eq_bind, Option.some_bind] at h
      cases hrest : orest.mapM (fun o => match o with
        | .full f => some f
        | .withLoss _ _ => none) with
      | none => rw [hrest] at h; simp at h
      | some fs =>
        rw [hrest] at h
        simp only [Option.some_bind, Option.some.injEq] at h
        subst h
        obtain ⟨hlen, hall⟩ := ih fs hrest
        refine ⟨by simp [hlen], ?_⟩
        intro i hi hf
        match i with
        | 0 => rfl
        | i' + 1 =>
          simpa using hall i' (by simpa using hi) (by simpa using hf)

/-- Inversion of a successful grouped discovery call: every sub-engine was
invoked through runGroups with the one drawn seed, and the combined index
stack is the list of the per-group index tensors. -/
theorem groupedForward_full_inv (g : GroupedResidualVQ) (tr : Bool)
    (x : Grid Vec) (seed : Nat) (go : GroupedFull)
    (h : g.forward tr x [] seed = .ok (.full go)) :
    featSize x = g.dim ∧
    ∃ outs fulls,
      runGroups tr seed g.rvqs (chunkFeat g.groups x) [] = .ok outs ∧
      extractFull outs = some fulls ∧
      go.all_indices = fulls.map (fun f => f.all_indices) := by
  simp only [GroupedResidualVQ.forward] at h
  split at h
  · exact absurd h (by simp)
  · rename_i hfeat
    rw [if_neg (by simp)] at h
    split at h
    · exact absurd h (by simp)
    · rename_i outs houts
      rw [if_neg (by simp)] at h
      split at h
      · exact absurd h (by simp)
      · rename_i fulls hfulls
        simp only [Except.ok.injEq, GroupedRet.full.injEq] at h
        subst h
        exact ⟨by omega, outs, fulls, houts, hfulls, rfl⟩

/-- C6: for a grouped engine built by construction, one seed value is drawn
per grouped call (the single drawnSeed of the shared keyword-argument
dictionary, line 329) and passed as the fixed dropout seed to every
per-group sub-engine, so within one successful grouped training call every
group samples the identical dropout cutoff and the per-group index tensors
carry identical sentinel-position patterns; distinct calls use their own
independently drawn seed value. -/
theorem c6_grouped_seed_consistency (dim groups nq : Nat) (cbd : Option Nat)
    (qd : Bool) (qdci : Int) (qdmo : Nat) (shared : Bool)
    (mk : Nat → Nat → StageQuantizer) (pIn pOut : Nat → Vec → Vec)
    (g : GroupedResidualVQ)
    (hg : GroupedResidualVQ.init dim groups nq cbd 1 qd qdci qdmo shared
        mk pIn pOut = .ok g)
    (x : Grid Vec) (seed : Nat) (go : GroupedFull)
    (h : g.forward true x [] seed = .ok (.full go)) :
    (∀ (i j : Nat), i < g.rvqs.length → j < g.rvqs.length →
      g.rvqs[i]!.sampledCutoff (some seed) 0
        = g.rvqs[j]!.sampledCutoff (some seed) 0) ∧
    (∀ (i j : Nat), i < g.rvqs.length → j < g.rvqs.length →
      ∀ b p q, b < x.length → p < (x.getD b []).length → q < nq →
        (getI3 (go.all_indices.getD i []) b p q = -1 ↔
          getI3 (go.all_indices.getD j []) b p q = -1)) := by
  obtain ⟨hgg, hglen, hcfg⟩ :=
    groupedInit_inv dim groups nq cbd 1 qd qdci qdmo shared mk pIn pOut g hg
  obtain ⟨hfeat, outs, fulls, houts, hextract, hallidx⟩ :=
    groupedForward_full_inv g true x seed go h
  obtain ⟨holen, hocall⟩ :=
    runGroups_nil_inv true seed g.rvqs (chunkFeat g.groups x) outs houts
  obtain ⟨hflen, hfull⟩ := extractFull_inv outs fulls hextract
  have hcut : ∀ (i : Nat), i < g.rvqs.length →
      g.rvqs[i]!.sampledCutoff (some seed) 0
        = dropoutCutoff qdci.toNat nq qdmo seed := by
    intro i hi
    rw [getElem!_pos g.rvqs i hi]
    obtain ⟨h1, h2, h3, h4, h5⟩ := hcfg _ (List.getElem_mem (l := g.rvqs) hi)
    unfold ResidualVQ.sampledCutoff
    rw [h1, h3, h4]
    rfl
  have hsent : ∀ (i : Nat) (hi : i < g.rvqs.length),
      ∀ b p q, b < x.length → p < (x.getD b []).length → q < nq →
      (getI3 (go.all_indices.getD i []) b p q = -1 ↔
        ((true && g.rvqs[i].quantize_dropout) = true ∧
          g.rvqs[i].sampledCutoff (some seed) 0 < q)) := by
    intro i hi b p q hb hp hq
    obtain ⟨hci, hoi, hei⟩ := hocall i hi
    have hfi : i < fulls.length := by omega
    have hei2 : g.rvqs[i].forward true ((chunkFeat g.groups x)[i]) none
        (some seed) 0 = .ok (.full fulls[i]) := by
      rw [← hfull i (by omega) hfi]
      exact hei
    obtain ⟨h1, h2, h3, h4, h5⟩ := hcfg _ (List.getElem_mem (l := g.rvqs) hi)
    have hshc : gshape ((chunkFeat g.groups x)[i]) = gshape x := by
      simp only [chunkFeat]
      rw [List.getElem_map]
      exact gshape_gmap _ _
    obtain ⟨_, _, _, _, hiff⟩ := forward_sentinel_spec g.rvqs[i] true
      ((chunkFeat g.groups x)[i]) (some seed) 0 fulls[i]
      (by rw [h5, h1]) hei2
    have hgoidx : go.all_indices.getD i [] = fulls[i].all_indices := by
      rw [hallidx]
      exact getD_map_of_lt _ _ _ _ hfi
    rw [hgoidx]
    exact hiff b p q (by have := gshape_eq_length hshc; omega)
      (by have := gshape_row_len hshc b; omega) (by omega)
  refine ⟨fun i j hi hj => by rw [hcut i hi, hcut j hj], ?_⟩
  intro i j hi hj b p q hb hp hq
  rw [hsent i hi b p q hb hp hq, hsent j hj b p q hb hp hq]
  obtain ⟨hi1, hi2, _, _, _⟩ := hcfg _ (List.getElem_mem (l := g.rvqs) hi)
  obtain ⟨hj1, hj2, _, _, _⟩ := hcfg _ (List.getElem_mem (l := g.rvqs) hj)
  have hci := hcut i hi
  have hcj := hcut j hj
  rw [getElem!_pos g.rvqs i hi] at hci
  rw [getElem!_pos g.rvqs j hj] at hcj
  rw [hi2, hj2, hci, hcj]

/-- C6 witness: the concrete 2-group engine with drawn seed 2 makes both
groups sample the same cutoff (0: both drop stage 1), with matching
sentinel patterns at stage 1 of both groups. -/
theorem c6_witness :
    GroupedResidualVQ.init 2 2 2 none 1 true 0 1 false (fun _ _ => sqW)
      (fun _ => id) (fun _ => id) = .ok gW ∧
    gW.forward true xW2 [] 2 = .ok (.full gOutW) ∧
    gW.rvqs[0]!.sampledCutoff (some 2) 0 = gW.rvqs[1]!.sampledCutoff (some 2) 0 ∧
    (getI3 (gOutW.all_indices.getD 0 []) 0 0 1 = -1 ↔
      getI3 (gOutW.all_indices.getD 1 []) 0 0 1 = -1) := by
  have hc6 := c6_grouped_seed_consistency 2 2 2 none true 0 1 false
    (fun _ _ => sqW) (fun _ => id) (fun _ => id) gW rfl xW2 2 gOutW rfl
  exact ⟨rfl, rfl, hc6.1 0 1 (by decide) (by decide),
    hc6.2 0 1 (by decide) (by decide) 0 0 1 (by decide) (by decide) (by decide)⟩

end ResidualVQSpec
